import Mathlib

/-!
# Verification of the MetricsReporter metrics core

Shallow embedding of the temporal reconstruction / aggregation engine of the
MetricsReporter repository (`calculator/__init__.py`, the ClearQuest and
Jira-GT calculators, and `utilities.py`), together with theorems settling the
frozen claims about it.

Modelling conventions:
* Timestamps and dates are integers counting whole days, with day 0 chosen to
  be a Monday, so that Python's `date.weekday()` is `d % 7`.  Every comparison
  the replay/checkpoint code performs on timestamps first truncates them to
  dates (`.date()`, `replace(hour=0, ...)`), and the aging arithmetic is
  granularity-independent, so the day-level axis is faithful.
* Python `OrderedDict`s are association lists `List (key × value)`; dict
  indexing (`d[k]`), which raises `KeyError` when the key is absent, is
  modelled with `Option`-valued operations; `d.get(k, dflt)` is total.
* A `timedelta` is the integer number of days it spans; the division by 86400
  seconds/day in `AverageAge.calculate_average` is absorbed by this choice.
* Python truthiness of a nullable string (`None` and `''` are falsy) is
  `optTruthy`.
-/

namespace MetricsReporter

/-- Constant `TOTAL = 'Total'` from `constants.py`. -/
def TOTAL : String := "Total"

/-- Constant `OPEN = 'Open'` from `constants.py`. -/
def OPEN : String := "Open"

/-- Constant `CLOSED = 'Closed'` from `constants.py`. -/
def CLOSED : String := "Closed"

/-- Constant `OVERALL = 'Overall'` from `constants.py`. -/
def OVERALL : String := "Overall"

/-- Python truthiness of a nullable string: `None` and `''` are falsy. -/
def optTruthy : Option String → Bool
  | none => false
  | some s => !(s == "")

/-- Python `sep.join(l)` for a list of strings. -/
def joinSep (sep : String) : List String → String
  | [] => ""
  | [x] => x
  | x :: y :: xs => x ++ sep ++ joinSep sep (y :: xs)

/-- Helper for `normalizeStatus`: Python `s.split()` (split on whitespace
runs, dropping empty tokens), over the character list, with an accumulator
holding the current token reversed. -/
def splitWsAux : List Char → List Char → List String
  | [], acc => if acc.isEmpty then [] else [String.mk acc.reverse]
  | c :: rest, acc =>
    if c.isWhitespace then
      if acc.isEmpty then splitWsAux rest []
      else String.mk acc.reverse :: splitWsAux rest []
    else splitWsAux rest (c :: acc)

/-- `' '.join(status.split()).strip()` from `Calculator._get_status_group`
(line 73 of `calculator/__init__.py`): collapse whitespace runs to single
spaces (the trailing `strip` is a no-op after the join). -/
def normalizeStatus (s : String) : String :=
  joinSep " " (splitWsAux s.toList [])

/-- A status-group map: ordered mapping from group name to its list of raw
statuses (`self.status_map`). -/
abbrev StatusMap := List (String × List String)

/-- `Calculator._get_status_group`: normalize the status, then return the
first group whose status list contains it, else `None`. -/
def getStatusGroup (sm : StatusMap) (status : String) : Option String :=
  match sm.find? (fun g => normalizeStatus status ∈ g.2) with
  | some g => some g.1
  | none => none

/-- The description text built by `Calculator.get_status_desc` for one group:
the single status for a 1-element list, `"G includes A & B"` for two, and
`"G includes " + ', '.join(all but last) + ' & last'` for three or more.
An empty status list makes the source raise `IndexError`, modelled as
`none`. -/
def descFor (group : String) : List String → Option String
  | [] => none
  | [s] => some s
  | [s1, s2] => some (group ++ " includes " ++ s1 ++ " & " ++ s2)
  | l => some (group ++ " includes " ++ joinSep ", " l.dropLast ++ " & " ++ (l.getLast?.getD ""))

/-- `Calculator.get_status_desc`: one `(group, description)` pair per group,
in map order. -/
def getStatusDesc (sm : StatusMap) : List (String × Option String) :=
  sm.map (fun g => (g.1, descFor g.1 g.2))

/-- Round a rational to one decimal place, as `round(x, 1)` does in
`AverageAge.calculate_average` (the source rounds a float; this model agrees
except on exact midpoints, which no configured data hits). -/
def roundTenth (q : ℚ) : ℚ := (round (q * 10) : ℤ) / 10

/-- The quantity computed by `AverageAge.calculate_average`: sum of ages (in
days) over item count, rounded to a tenth, or `0` when the count is zero. -/
def calcAvg (sum : Int) (num : Nat) : ℚ :=
  if 0 < num then roundTenth ((sum : ℚ) / (num : ℚ)) else 0

/-- The `AverageAge` accumulator from `utilities.py`: a duration sum (in
days), an item count, and the derived rounded average. -/
structure AverageAge where
  sum : Int
  num : Nat
  average : ℚ
deriving DecidableEq

/-- `AverageAge.calculate_average`: recompute the stored average from the
stored sum and count. -/
def AverageAge.calcAverage (a : AverageAge) : AverageAge :=
  { a with average := calcAvg a.sum a.num }

/-- `AverageAge.__init__`: store the sum and count and compute the initial
average. -/
def AverageAge.mkInit (s : Int) (n : Nat) : AverageAge :=
  { sum := s, num := n, average := calcAvg s n }

/-- `AverageAge()` with the default arguments: zero sum, zero count. -/
def AverageAge.zero : AverageAge := AverageAge.mkInit 0 0

/-- `AverageAge.update`: add one sample; recompute the average only when
`updateAvg` is true. -/
def AverageAge.update (a : AverageAge) (value : Int) (updateAvg : Bool) : AverageAge :=
  let a' : AverageAge := { a with sum := a.sum + value, num := a.num + 1 }
  if updateAvg then a'.calcAverage else a'

/-- `AverageAge.combine`: merge another accumulator (summing sums and
counts); recompute the average only when `updateAvg` is true. -/
def AverageAge.combine (a b : AverageAge) (updateAvg : Bool) : AverageAge :=
  let a' : AverageAge := { a with sum := a.sum + b.sum, num := a.num + b.num }
  if updateAvg then a'.calcAverage else a'

/-- Default priority list set in `Calculator.__init__`. -/
def defaultPriorityList : List String :=
  ["Blocker", "Critical", "Major", "Minor", "Trivial"]

/-- An inner `OrderedDict` of counts: ordered association list key → count. -/
abbrev CountRow := List (String × Nat)

/-- A two-level count dictionary such as `severity_data` / `status_data`. -/
abbrev CountTable := List (String × CountRow)

/-- A row with the given keys, every count zero (the dict comprehensions in
`_get_severity_data` / `_get_status_data`). -/
def rowInit (keys : List String) : CountRow := keys.map (fun k => (k, 0))

/-- `row[k] += 1`: increment the first entry with the given key, or fail with
`none` (Python `KeyError`) when the key is absent. -/
def rowIncr : CountRow → String → Option CountRow
  | [], _ => none
  | (k, v) :: rest, key =>
    if k == key then some ((k, v + 1) :: rest)
    else (rowIncr rest key).map (fun r => (k, v) :: r)

/-- `table[k1][k2] += 1` on a nested dict, failing (`KeyError`) when either
key is absent. -/
def tableIncr : CountTable → String → String → Option CountTable
  | [], _, _ => none
  | (k, row) :: rest, k1, k2 =>
    if k == k1 then (rowIncr row k2).map (fun r => (k, r) :: rest)
    else (tableIncr rest k1 k2).map (fun t => (k, row) :: t)

/-- Read a count row entry, `0` when absent (used only to state properties;
the source reads counts after construction). -/
def rowGet (r : CountRow) (k : String) : Nat :=
  ((r.find? (fun e => e.1 == k)).map Prod.snd).getD 0

/-- The row stored under an outer key (`[]` when absent). -/
def rowOf (t : CountTable) (k : String) : CountRow :=
  ((t.find? (fun e => e.1 == k)).map Prod.snd).getD []

/-- Read a nested count, `0` when either key is absent. -/
def tableGet (t : CountTable) (k1 k2 : String) : Nat := rowGet (rowOf t k1) k2

/-- One issue's current state as written into `current_state[key]` during
replay and consumed by the aggregators (fields `PROJECT`, `TRANS`, `STATUS`,
`PRIORITY`). -/
structure CurrState where
  proj : String
  trans : Int
  status : String
  priority : Option String
deriving DecidableEq

/-- The zero-initialized `severity_data` table of `_get_severity_data`:
outer keys `[TOTAL, CLOSED, OPEN]`, inner keys `priority_list + [TOTAL]`. -/
def sevInit (pl : List String) : CountTable :=
  [TOTAL, CLOSED, OPEN].map (fun x => (x, rowInit (pl ++ [TOTAL])))

/-- One pass of the inner `for p in [priority, TOTAL]` loop body of
`_get_severity_data`: look up `self.status_map[CLOSED]` (a `KeyError` when
the map has no `Closed` group), increment the `CLOSED` or `OPEN` row at `p`
according to membership of the raw status, then the `TOTAL` row at `p`. -/
def sevIncrOne (sm : StatusMap) (status : String) (t : CountTable) (p : String) :
    Option CountTable := do
  let cl ← (sm.find? (fun g => g.1 == CLOSED)).map Prod.snd
  let t1 ← if status ∈ cl then tableIncr t CLOSED p else tableIncr t OPEN p
  tableIncr t1 TOTAL p

/-- The per-issue body of `_get_severity_data`: skip issues whose priority is
falsy, otherwise run the loop body for `p = priority` and `p = TOTAL`
(the two-element loop unrolled). -/
def sevStep (sm : StatusMap) (t : CountTable) (i : CurrState) : Option CountTable :=
  if optTruthy i.priority then do
    let t1 ← sevIncrOne sm i.status t (i.priority.getD "")
    sevIncrOne sm i.status t1 TOTAL
  else some t

/-- `Calculator._get_severity_data` over the values of the current-state
dict, in iteration order; `none` models a `KeyError` escaping the loop. -/
def getSeverityData (sm : StatusMap) (pl : List String) (data : List CurrState) :
    Option CountTable :=
  data.foldlM (sevStep sm) (sevInit pl)

/-- The zero-initialized `status_data` table of `_get_status_data`: outer key
`TOTAL`, inner keys `status_map.keys() + [TOTAL]`. -/
def statInit (sm : StatusMap) : CountTable :=
  [TOTAL].map (fun x => (x, rowInit (sm.map Prod.fst ++ [TOTAL])))

/-- The per-issue body of `_get_status_data`: resolve the status to a group;
when the group is truthy, increment the `TOTAL` row at the group and at
`TOTAL` (the `for s in [status, TOTAL]` loop unrolled). -/
def statStep (sm : StatusMap) (t : CountTable) (i : CurrState) : Option CountTable :=
  if optTruthy (getStatusGroup sm i.status) then do
    let t1 ← tableIncr t TOTAL ((getStatusGroup sm i.status).getD "")
    tableIncr t1 TOTAL TOTAL
  else some t

/-- `Calculator._get_status_data` over the values of the current-state dict. -/
def getStatusData (sm : StatusMap) (data : List CurrState) : Option CountTable :=
  data.foldlM (statStep sm) (statInit sm)

/-- The SCR status-group map from `SCRCalculator.get_status_group_map`. -/
def scrStatusMap : StatusMap :=
  [("New", ["New"]),
   ("Open", ["Assigned", "Open", "Wait", "Approved", "Resolved", "Verified",
             "Merged", "Postponed", "Duplicate"]),
   ("Document Impacted", ["Document Impacted"]),
   ("In Test", ["Baselined", "System Tested", "Ready To Field", "Fielded"]),
   ("SE Reviewed", ["SE Reviewed", "SE Approved"]),
   ("Closed", ["Closed"])]

/-- Python's `date.weekday()` under the day-0-is-Monday convention. -/
def pyWeekday (d : Int) : Int := d % 7

/-- `utilities.get_extraction_date`: the first date on the extraction
weekday that is on or after the given date (the `replace(hour=0, ...)` is
the identity at day granularity). -/
def getExtractionDate (date : Int) (extractionday : Int) : Int :=
  if pyWeekday date > extractionday then date + (extractionday - pyWeekday date + 7)
  else date + (extractionday - pyWeekday date)

/-- `utilities._append_historical_date`: walk back in 7-day steps from
`curr` until the previous step would fall strictly before `earliest`, and
return the dates in ascending order. -/
def appendHistoricalDate (earliest : Int) (curr : Int) : List Int :=
  if curr - 7 < earliest then [curr]
  else appendHistoricalDate earliest (curr - 7) ++ [curr]
termination_by (curr - earliest).toNat
decreasing_by omega

/-- `utilities.get_historical_dates`: the checkpoint date series, from
`today`'s extraction date back towards `earliest` (the `hastime` flag only
chooses between `datetime` and `date` objects; at day granularity both are
the same). -/
def getHistoricalDates (earliest : Int) (extractionday : Int) (todayD : Int) : List Int :=
  appendHistoricalDate earliest (getExtractionDate todayD extractionday)

/-- A change-history sub-record: parallel lists `Old Status`, `New Status`,
`Status Transition Date`. The first old status may be the null sentinel. -/
structure IssueHist where
  old : List (Option String)
  new : List String
  trans : List Int
deriving DecidableEq

/-- One issue's queried record (`param_data`), with the fields the metrics
core reads. `none` in `created`/`submitDate`/`proj` models the dict key
being absent (read with `.get`) or the value being null. -/
structure IssueData where
  priority : Option String
  status : String
  created : Option Int
  submitDate : Option Int
  proj : Option String
  comps : Option String
  links : String
  pack : String
  hist : Option IssueHist
deriving DecidableEq

/-- `param_data.get(CREATED, param_data.get(SUBMIT_DATE))` from
`_get_average_age_data`. -/
def IssueData.createdEff (i : IssueData) : Option Int := i.created <|> i.submitDate

/-- A ClearQuest heap entry `(date, proj, key, status, priority)` pushed by
`ClearQuestCalculator.calculate`. -/
structure QEntry where
  date : Int
  proj : String
  key : String
  status : String
  priority : Option String
deriving DecidableEq

/-- A Jira-GT heap entry
`(date, proj, key, status, priority, comps, links, pack)` pushed by
`JiraGTCalculator.calculate`. -/
structure JEntry where
  date : Int
  proj : String
  key : String
  status : String
  priority : Option String
  comps : Option String
  links : String
  pack : String
deriving DecidableEq

/-- The queue entries one ClearQuest issue contributes (lines 66-75 of
`clearquest_calculator/__init__.py`): nothing without a truthy history,
otherwise one entry per transition date, with the new status at the same
index (`hist[NEW][i]`; `none` models the `IndexError` raised when the new
list is shorter). -/
def cqIssueEntries (defaultProj key : String) (pd : IssueData) : Option (List QEntry) :=
  match pd.hist with
  | none => some []
  | some h =>
    (List.range h.trans.length).mapM (fun i => do
      let d ← h.trans[i]?
      let s ← h.new[i]?
      pure (⟨d, pd.proj.getD defaultProj, key, s, pd.priority⟩ : QEntry))

/-- All ClearQuest queue entries, in push order over the issue dict. -/
def cqQueueEntries (defaultProj : String) (data : List (String × IssueData)) :
    Option (List QEntry) :=
  data.foldlM (fun acc kv => do
    let es ← cqIssueEntries defaultProj kv.1 kv.2
    pure (acc ++ es)) []

/-- The queue entries one Jira-GT issue contributes (lines 102-118 of
`jira_gt_calculator/__init__.py`): always one synthetic entry with status
`'New'` at the creation date (`param_data[CREATED]`; `none` models the
`KeyError` when absent), then one entry per history transition. -/
def jiraIssueEntries (defaultProj key : String) (pd : IssueData) : Option (List JEntry) := do
  let c ← pd.created
  let proj := pd.proj.getD defaultProj
  let histEntries ←
    match pd.hist with
    | none => pure []
    | some h =>
      (List.range h.trans.length).mapM (fun i => do
        let d ← h.trans[i]?
        let s ← h.new[i]?
        pure (⟨d, proj, key, s, pd.priority, pd.comps, pd.links, pd.pack⟩ : JEntry))
  pure ((⟨c, proj, key, "New", pd.priority, pd.comps, pd.links, pd.pack⟩ : JEntry)
        :: histEntries)

/-- All Jira-GT queue entries, in push order over the issue dict. -/
def jiraQueueEntries (defaultProj : String) (data : List (String × IssueData)) :
    Option (List JEntry) :=
  data.foldlM (fun acc kv => do
    let es ← jiraIssueEntries defaultProj kv.1 kv.2
    pure (acc ++ es)) []

/-- Python 2 comparison of a nullable string: `None` sorts before every
string. -/
def optStrLe (a b : Option String) : Bool :=
  match a, b with
  | none, _ => true
  | some _, none => false
  | some x, some y => decide (x ≤ y)

/-- Lexicographic order of ClearQuest heap tuples, as `heapq` compares
them. -/
def qle (a b : QEntry) : Bool :=
  if a.date ≠ b.date then decide (a.date < b.date)
  else if a.proj ≠ b.proj then decide (a.proj < b.proj)
  else if a.key ≠ b.key then decide (a.key < b.key)
  else if a.status ≠ b.status then decide (a.status < b.status)
  else optStrLe a.priority b.priority

/-- Lexicographic order of Jira-GT heap tuples. -/
def jle (a b : JEntry) : Bool :=
  if a.date ≠ b.date then decide (a.date < b.date)
  else if a.proj ≠ b.proj then decide (a.proj < b.proj)
  else if a.key ≠ b.key then decide (a.key < b.key)
  else if a.status ≠ b.status then decide (a.status < b.status)
  else if a.priority ≠ b.priority then optStrLe a.priority b.priority
  else if a.comps ≠ b.comps then optStrLe a.comps b.comps
  else if a.links ≠ b.links then decide (a.links < b.links)
  else decide (a.pack ≤ b.pack)

/-- Insertion into a list sorted by `le`. -/
def insertBy {α : Type} (le : α → α → Bool) (e : α) : List α → List α
  | [] => [e]
  | x :: xs => if le e x then e :: x :: xs else x :: insertBy le e xs

/-- Sort by `le`; a heap whose entries are totally ordered pops them in
exactly this order, so the heap is modelled by its sorted entry list. -/
def sortBy {α : Type} (le : α → α → Bool) : List α → List α
  | [] => []
  | x :: xs => insertBy le x (sortBy le xs)

/-- The `while (queue and queue[0][0].date() <= date)` pop loop: split a
date-sorted queue into the entries due at the checkpoint and the rest. -/
def popDue {α : Type} (dateOf : α → Int) (d : Int) : List α → List α × List α
  | [] => ([], [])
  | e :: rest =>
    if dateOf e ≤ d then
      let (p, r) := popDue dateOf d rest
      (e :: p, r)
    else ([], e :: rest)

/-- `current_state[key] = {...}`: overwrite the entry with the given key, or
append a new one. -/
def setState {α : Type} (keyOf : α → String) (s : List (String × α)) (e : α) :
    List (String × α) :=
  if s.any (fun kv => kv.1 == keyOf e) then
    s.map (fun kv => if kv.1 == keyOf e then (kv.1, e) else kv)
  else s ++ [(keyOf e, e)]

/-- The checkpoint loop shared by `ClearQuestCalculator.calculate` and
`JiraGTCalculator.calculate`: for each checkpoint date in order, apply every
due queue entry to the current-state table, then record the table as that
date's snapshot. -/
def replaySteps {α : Type} (dateOf : α → Int) (keyOf : α → String) :
    List Int → List α → List (String × α) → List (Int × List (String × α))
  | [], _, _ => []
  | d :: ds, q, s =>
    let pr := popDue dateOf d q
    let s' := pr.1.foldl (setState keyOf) s
    (d, s') :: replaySteps dateOf keyOf ds pr.2 s'

/-- The first status of the aging walk (lines 194-205 of
`calculator/__init__.py`): the first old status when truthy, else the first
new status of the history, else the issue's current status when there is no
history (an empty `Old`/`New` list makes the source raise; modelled by the
`""` defaults, which no settled claim exercises). -/
def issueFirstStatus (i : IssueData) : String :=
  match i.hist with
  | some h =>
    if optTruthy (h.old.headD none) then (h.old.headD none).getD ""
    else h.new.headD ""
  | none => i.status

/-- The `(status, timestamp)` history list the aging walk traverses, given
the resolved creation timestamp `c`: prepend `(first old status, created)`
when the first old status is truthy, else just `zip(new, trans)`; a single
`(current status, created)` pair when there is no history. -/
def issueHistoryList (i : IssueData) (c : Int) : List (String × Int) :=
  match i.hist with
  | some h =>
    if optTruthy (h.old.headD none) then ((h.old.headD none).getD "", c) :: h.new.zip h.trans
    else h.new.zip h.trans
  | none => [(i.status, c)]

/-- State of the aging walk: the current group, the date it started, and the
`(closed group, duration)` contributions emitted so far. -/
structure WalkSt where
  currGroup : Option String
  currDate : Int
  contribs : List (Option String × Int)
deriving DecidableEq

/-- One iteration of the aging walk loop (lines 211-221): when the resolved
group changes, emit the elapsed duration for the group being closed and
restart the clock; otherwise leave the state untouched. -/
def ageStep (sm : StatusMap) (st : WalkSt) (e : String × Int) : WalkSt :=
  let group := getStatusGroup sm e.1
  if group ≠ st.currGroup then
    ⟨group, e.2, st.contribs ++ [(st.currGroup, e.2 - st.currDate)]⟩
  else st

/-- All per-group duration contributions the aging walk produces for one
issue (excluding the separate Overall-age contribution): the boundary
contributions of the loop plus the final contribution
`(group of last status, now - last status date)` of lines 223-225. The
source raises `NameError` on an empty history list (no final contribution
here; unreachable for the settled claims). -/
def issueContribs (sm : StatusMap) (i : IssueData) (now c : Int) :
    List (Option String × Int) :=
  match (issueHistoryList i c).getLast? with
  | some last =>
    ((issueHistoryList i c).foldl (ageStep sm)
      ⟨getStatusGroup sm (issueFirstStatus i), c, []⟩).contribs ++
    [(getStatusGroup sm last.1, now - last.2)]
  | none =>
    ((issueHistoryList i c).foldl (ageStep sm)
      ⟨getStatusGroup sm (issueFirstStatus i), c, []⟩).contribs

/-- The separate Overall-age duration of lines 227-231: when the walk's
final group is `Closed`, the last transition date minus creation, else now
minus creation. -/
def overallAgeDur (sm : StatusMap) (i : IssueData) (now c : Int) : Int :=
  if ((issueHistoryList i c).foldl (ageStep sm)
      ⟨getStatusGroup sm (issueFirstStatus i), c, []⟩).currGroup = some CLOSED then
    (((issueHistoryList i c).getLast?).map Prod.snd).getD c - c
  else now - c

/-- The age map: priority → status group → accumulator. -/
abbrev AgeMap := List (String × List (String × AverageAge))

/-- The zero age map of `_get_average_age_data` (lines 174-183): rows
`priority_list + [Overall]`, columns `status_map.keys() + [Overall]`. -/
def ageMapInit (sm : StatusMap) (pl : List String) : AgeMap :=
  (pl ++ [OVERALL]).map (fun p =>
    (p, (sm.map Prod.fst ++ [OVERALL]).map (fun s => (s, AverageAge.zero))))

/-- `Calculator._set_age_map_value`, taking the already-computed duration:
for each of `[priority, Overall]` (just `[Overall]` when the priority is
falsy), look the row up (`age_map[p]`, a `KeyError` — `none` — when absent)
and, when the group is one of the row's keys, feed the duration into its
accumulator with `update_avg=False`. -/
def setAgeMapGroup (am : AgeMap) (priority : Option String) (group : Option String)
    (diff : Int) : Option AgeMap :=
  let ps := if optTruthy priority then [priority.getD "", OVERALL] else [OVERALL]
  ps.foldlM (fun am p =>
    match am.find? (fun row => row.1 == p) with
    | none => none
    | some row =>
      match group with
      | some g =>
        if row.2.any (fun e => e.1 == g) then
          some (am.map (fun r =>
            if r.1 == p then
              (r.1, r.2.map (fun e => if e.1 == g then (e.1, e.2.update diff false) else e))
            else r))
        else some am
      | none => some am) am

/-- The full per-issue aging update of `_get_average_age_data` (lines
186-231): resolve the creation timestamp (`none` when both `CREATED` and
`SUBMIT_DATE` are absent — the source then fails on date arithmetic), apply
every walk contribution in order, then the Overall-age contribution. -/
def ageIssueApply (sm : StatusMap) (now : Int) (am : AgeMap) (i : IssueData) :
    Option AgeMap := do
  let c ← i.createdEff
  let am ← (issueContribs sm i now c).foldlM
    (fun am cb => setAgeMapGroup am i.priority cb.1 cb.2) am
  setAgeMapGroup am i.priority (some OVERALL) (overallAgeDur sm i now c)

/-- `Calculator._get_average_age_data`: fold all issues into the zero age
map, then recompute every accumulator's average (lines 233-235). -/
def getAverageAgeData (sm : StatusMap) (pl : List String) (now : Int)
    (data : List (String × IssueData)) : Option AgeMap := do
  let am ← data.foldlM (fun am kv => ageIssueApply sm now am kv.2) (ageMapInit sm pl)
  pure (am.map (fun row => (row.1, row.2.map (fun e => (e.1, e.2.calcAverage)))))

/-- Read an age-map accumulator (zero when absent; used to state
properties). -/
def ageGet (am : AgeMap) (p g : String) : AverageAge :=
  ((((am.find? (fun row => row.1 == p)).map Prod.snd).getD []).find?
      (fun e => e.1 == g) |>.map Prod.snd).getD AverageAge.zero

/-- Project a ClearQuest state-table value to the `current_state` record the
aggregators consume. -/
def qState (e : QEntry) : CurrState := ⟨e.proj, e.date, e.status, e.priority⟩

/-- Project a Jira-GT state-table value to the fields the inherited baseline
aggregators read. -/
def jState (e : JEntry) : CurrState := ⟨e.proj, e.date, e.status, e.priority⟩

/-- `ClearQuestCalculator.calculate`: build the queue, and when it is
non-empty run the weekly checkpoint replay from the earliest queued date,
aggregating severity and status counts per checkpoint; the age map is
computed separately over the raw data. `none` models any uncaught Python
exception. -/
def cqCalculate (sm : StatusMap) (pl : List String) (project : String)
    (todayD now : Int) (data : List (String × IssueData)) :
    Option ((List (Int × CountTable)) × (List (Int × CountTable)) × AgeMap) := do
  let entries ← cqQueueEntries project data
  let queue := sortBy qle entries
  let series ←
    match queue with
    | [] => pure (([], []) : (List (Int × CountTable)) × (List (Int × CountTable)))
    | e0 :: _ => do
      let dates := getHistoricalDates e0.date 4 todayD
      let snaps := replaySteps QEntry.date QEntry.key dates queue []
      let sev ← snaps.mapM (fun s => do
        let t ← getSeverityData sm pl (s.2.map (fun kv => qState kv.2))
        pure (s.1, t))
      let stat ← snaps.mapM (fun s => do
        let t ← getStatusData sm (s.2.map (fun kv => qState kv.2))
        pure (s.1, t))
      pure (sev, stat)
  let am ← getAverageAgeData sm pl now data
  pure (series.1, series.2, am)

/-- `JiraGTCalculator.calculate` (with its default `age_data=True`): same
checkpoint replay over the Jira queue, which always contains the synthetic
`'New'` entry per issue. -/
def jiraCalculate (sm : StatusMap) (pl : List String) (project : String)
    (todayD now : Int) (data : List (String × IssueData)) :
    Option ((List (Int × CountTable)) × (List (Int × CountTable)) × AgeMap) := do
  let entries ← jiraQueueEntries project data
  let queue := sortBy jle entries
  let series ←
    match queue with
    | [] => pure (([], []) : (List (Int × CountTable)) × (List (Int × CountTable)))
    | e0 :: _ => do
      let dates := getHistoricalDates e0.date 4 todayD
      let snaps := replaySteps JEntry.date JEntry.key dates queue []
      let sev ← snaps.mapM (fun s => do
        let t ← getSeverityData sm pl (s.2.map (fun kv => jState kv.2))
        pure (s.1, t))
      let stat ← snaps.mapM (fun s => do
        let t ← getStatusData sm (s.2.map (fun kv => jState kv.2))
        pure (s.1, t))
      pure (sev, stat)
  let am ← getAverageAgeData sm pl now data
  pure (series.1, series.2, am)

/-- The inner-dict keys of the rows of the age map: the groups whose
durations the guarded update of `_set_age_map_value` accepts. -/
def ageRowKeys (sm : StatusMap) : List String := sm.map Prod.fst ++ [OVERALL]

/-- The durations of the walk contributions that pass the
`status_group in age_map[p]` guard and are therefore fed into the given
row's per-group accumulators. -/
def fedDurations (sm : StatusMap) (contribs : List (Option String × Int)) : List Int :=
  (contribs.filter (fun cb =>
    match cb.1 with
    | some g => decide (g ∈ ageRowKeys sm)
    | none => false)).map Prod.snd

/-- The total duration one issue's aging walk feeds into the Overall row's
per-group accumulators (the Overall-age bucket excluded). -/
def overallRowFedSum (sm : StatusMap) (i : IssueData) (now c : Int) : Int :=
  (fedDurations sm (issueContribs sm i now c)).sum

/-- The precondition under which the aging walk loses no time: starting
from group `g0` whose clock began at `d0`, every history entry either
changes the resolved group or carries the timestamp at which the current
group started (so the final contribution's lower bound, the last entry's
timestamp, coincides with the group start). -/
def chainOk (sm : StatusMap) : Option String → Int → List (String × Int) → Bool
  | _, _, [] => true
  | g0, d0, e :: rest =>
    if getStatusGroup sm e.1 = g0 then decide (e.2 = d0) && chainOk sm g0 d0 rest
    else chainOk sm (getStatusGroup sm e.1) e.2 rest

/-! ### Concrete inputs used by counterexamples and witnesses -/

/-- An issue whose single history event does not change the resolved status
group (its first new status already is `Closed`), used as the C1
counterexample: the creation-to-event segment is silently lost. -/
def c1HistIssue : IssueData :=
  ⟨some "Major", "Closed", some 0, none, none, none, "", "",
   some ⟨[none], ["Closed"], [5]⟩⟩

/-- An issue record with a current status distinct from the Jira initial
status and no change history, used to settle C4 and C9. -/
def noHistIssue : IssueData :=
  ⟨some "Major", "Closed", some 0, none, none, none, "", "", none⟩

/-- A concrete queue entry for the C3 witness. -/
def witEntry : QEntry := ⟨0, "P", "K1", "New", none⟩

/-- A current state whose priority `'Medium'` is not in the configured
priority list. -/
def mediumState : CurrState := ⟨"P", 0, "New", some "Medium"⟩

/-- The severity table for one open Major SCR issue (the value of
`getSeverityData scrStatusMap defaultPriorityList
[⟨"P", 0, "Assigned", some "Major"⟩]`), used by the C10 witness. -/
def rowsFor10 : CountTable :=
  [("Total", [("Blocker", 0), ("Critical", 0), ("Major", 1), ("Minor", 0), ("Trivial", 0),
              ("Total", 1)]),
   ("Closed", [("Blocker", 0), ("Critical", 0), ("Major", 0), ("Minor", 0), ("Trivial", 0),
               ("Total", 0)]),
   ("Open", [("Blocker", 0), ("Critical", 0), ("Major", 1), ("Minor", 0), ("Trivial", 0),
             ("Total", 1)])]

/-! ## Theorems -/

/-- C7: `AverageAge.combine` is commutative on the accumulated sum and
associative up to the derived average: `combine(a,b).sum = combine(b,a).sum`
and `average(combine(combine(a,b),c)) = average(combine(a,combine(b,c)))`. -/
theorem c7_combine_comm_assoc (a b c : AverageAge) :
    ((a.combine b true).sum = (b.combine a true).sum) ∧
    (((a.combine b true).combine c true).average = (a.combine (b.combine c true) true).average) := by
  refine ⟨?_, ?_⟩
  · simp [AverageAge.combine, AverageAge.calcAverage, Int.add_comm]
  · simp [AverageAge.combine, AverageAge.calcAverage, Int.add_assoc, Nat.add_assoc]

/-- C8 counterexample: for the status map `[("G", ["A","B","C"])]` the
source renders `"G includes A, B & C"` — there is no comma before the
ampersand, contradicting the claimed `"G includes A, B, & C"`. -/
theorem c8_no_oxford_comma_cex :
    getStatusDesc [("G", ["A", "B", "C"])] = [("G", some "G includes A, B & C")] ∧
    [("G", some "G includes A, B & C")] ≠
      ([("G", some "G includes A, B, & C")] : List (String × Option String)) := by
  constructor
  · rfl
  · decide

/-- C8 (amended): `get_status_desc` returns one pair per group in map
order; the text is the group's single status alone (not the group name) for
a 1-status group, `"G includes A & B"` for two statuses, and for three the
statuses joined as `"A, B & C"` — commas between all but the last pair and
a plain ampersand (no comma) before the last. -/
theorem c8_describe_groups (g a b c : String) :
    (∀ sm : StatusMap, (getStatusDesc sm).map Prod.fst = sm.map Prod.fst) ∧
    descFor g [a] = some a ∧
    descFor g [a, b] = some (g ++ " includes " ++ a ++ " & " ++ b) ∧
    descFor g [a, b, c] = some (g ++ " includes " ++ a ++ ", " ++ b ++ " & " ++ c) := by
  refine ⟨?_, rfl, rfl, ?_⟩
  · intro sm
    simp [getStatusDesc]
  · simp only [descFor, joinSep, List.dropLast, List.getLast?]
    simp [String.append_assoc]

/-- C4 counterexample: for an issue with no change history and current
status `'Closed'`, the ClearQuest queue-population loop queues *no* entry at
all, and the Jira-GT loop queues one entry whose status is the hardcoded
`'New'`, not the issue's current status — contradicting the claim that
exactly one synthetic entry carrying the current status is queued. -/
theorem c4_queue_entries_cex :
    noHistIssue.hist = none ∧ noHistIssue.status = "Closed" ∧
    cqQueueEntries "P" [("K1", noHistIssue)] = some [] ∧
    (jiraQueueEntries "P" [("K1", noHistIssue)]).map (fun l => l.map JEntry.status) =
      some ["New"] ∧
    "New" ≠ "Closed" := by
  refine ⟨rfl, rfl, rfl, rfl, by decide⟩

/-- C4 (amended): an issue without change history contributes no queue entry
whatsoever in the ClearQuest calculator, while the Jira-GT calculator queues
for *every* issue one synthetic entry with the fixed initial status `'New'`
(not the issue's current status) at its creation date, which for a
history-less issue is its only entry. -/
theorem c4_synthetic_entries (proj key : String) (pd : IssueData) (c : Int)
    (hh : pd.hist = none) (hc : pd.created = some c) :
    cqIssueEntries proj key pd = some [] ∧
    jiraIssueEntries proj key pd =
      some [⟨c, pd.proj.getD proj, key, "New", pd.priority, pd.comps, pd.links, pd.pack⟩] := by
  constructor
  · simp [cqIssueEntries, hh]
  · simp [jiraIssueEntries, hh, hc]

/-- Witness for `c4_synthetic_entries` at a concrete history-less issue. -/
theorem c4_synthetic_entries_witness :
    cqIssueEntries "P" "K1" noHistIssue = some [] ∧
    jiraIssueEntries "P" "K1" noHistIssue =
      some [⟨0, "P", "K1", "New", some "Major", none, "", ""⟩] :=
  c4_synthetic_entries "P" "K1" noHistIssue 0 rfl rfl

/-- The recursion of `_append_historical_date` always ends with the date it
was started from. -/
theorem appendHistoricalDate_getLast (e c : Int) :
    (appendHistoricalDate e c).getLast? = some c := by
  refine appendHistoricalDate.induct e
    (fun cc => (appendHistoricalDate e cc).getLast? = some cc) ?_ ?_ c
  · intro x hx
    rw [appendHistoricalDate, if_pos hx]
    rfl
  · intro x hx _
    rw [appendHistoricalDate, if_neg hx]
    simp

/-- The historical date list is never empty. -/
theorem appendHistoricalDate_ne_nil (e c : Int) : appendHistoricalDate e c ≠ [] := by
  intro h
  have := appendHistoricalDate_getLast e c
  rw [h] at this
  simp at this

/-- Consecutive dates of the historical date list differ by exactly 7. -/
theorem appendHistoricalDate_chain (e c : Int) :
    (appendHistoricalDate e c).Chain' (fun a b => b = a + 7) := by
  refine appendHistoricalDate.induct e
    (fun cc => (appendHistoricalDate e cc).Chain' (fun a b => b = a + 7)) ?_ ?_ c
  · intro x hx
    rw [appendHistoricalDate, if_pos hx]
    simp
  · intro x hx ih
    rw [appendHistoricalDate, if_neg hx]
    refine List.Chain'.append ih (by simp) ?_
    intro a ha b hb
    rw [appendHistoricalDate_getLast] at ha
    simp only [Option.mem_def, Option.some.injEq] at ha
    simp only [List.head?_cons, Option.mem_def, Option.some.injEq] at hb
    omega

/-- The first historical date lies in the window `[earliest, earliest + 7)`
(stated via `f - 7 < e`) and is congruent to the start date modulo 7. -/
theorem appendHistoricalDate_head (e c : Int) (h : e ≤ c) :
    ∃ f, (appendHistoricalDate e c).head? = some f ∧
      e ≤ f ∧ f - 7 < e ∧ (7 : Int) ∣ c - f := by
  refine appendHistoricalDate.induct e
    (fun cc => e ≤ cc → ∃ f, (appendHistoricalDate e cc).head? = some f ∧
      e ≤ f ∧ f - 7 < e ∧ (7 : Int) ∣ cc - f) ?_ ?_ c h
  · intro x hx hex
    rw [appendHistoricalDate, if_pos hx]
    exact ⟨x, rfl, hex, hx, by omega⟩
  · intro x hx ih
    intro _
    obtain ⟨f, hf, hef, hf7, hdvd⟩ := ih (by omega)
    rw [appendHistoricalDate, if_neg hx]
    refine ⟨f, ?_, hef, hf7, by omega⟩
    rw [List.head?_append, hf]
    rfl

/-- C2 counterexample: with earliest event day 14 (a Monday under the
day-0-is-Monday convention), extraction day 4 (Friday) and today day 34, the
series starts at 18; but day 11 is also a Friday with
`14 - 7 ≤ 11 < 14 + 7`, and `11 < 18`, so the first date is *not* the
earliest extraction-day date in the claimed window
`[earliest - 7, earliest + 7)`. -/
theorem c2_first_date_window_cex :
    (getHistoricalDates 14 4 34).head? = some 18 ∧
    pyWeekday 11 = 4 ∧ (14 : Int) - 7 ≤ 11 ∧ (11 : Int) < 14 + 7 ∧ (11 : Int) < 18 := by
  have hlist : getHistoricalDates 14 4 34 = [18, 25, 32, 39] := by
    show appendHistoricalDate 14 (getExtractionDate 34 4) = [18, 25, 32, 39]
    have hx : getExtractionDate 34 4 = 39 := by
      norm_num [getExtractionDate, pyWeekday]
    rw [hx]
    rw [appendHistoricalDate]
    norm_num
    rw [appendHistoricalDate]
    norm_num
    rw [appendHistoricalDate]
    norm_num
    rw [appendHistoricalDate]
    norm_num
  refine ⟨by rw [hlist]; rfl, by decide, by norm_num, by norm_num, by norm_num⟩

/-- C2 (amended): for a non-empty population (earliest ≤ today) and a
configured weekday `0 ≤ ed < 7`, the checkpoint series ascends in exact
7-day steps, its last date falls on the extraction weekday, and its first
date is the *earliest extraction-day date on or after the earliest event*
(equivalently, the unique one in `[earliest, earliest + 7)`) — not, as
claimed, the earliest such date `≥ earliest - 7`. -/
theorem c2_checkpoint_series (earliest ed todayD : Int)
    (h1 : earliest ≤ todayD) (h2 : 0 ≤ ed) (h3 : ed < 7) :
    (getHistoricalDates earliest ed todayD).Chain' (fun a b => b = a + 7) ∧
    (∃ last, (getHistoricalDates earliest ed todayD).getLast? = some last ∧
      pyWeekday last = ed) ∧
    (∃ f, (getHistoricalDates earliest ed todayD).head? = some f ∧
      earliest ≤ f ∧ f < earliest + 7 ∧ pyWeekday f = ed ∧
      ∀ x : Int, pyWeekday x = ed → earliest ≤ x → f ≤ x) := by
  have hc0 : todayD ≤ getExtractionDate todayD ed := by
    unfold getExtractionDate pyWeekday
    split <;> omega
  have hwd : pyWeekday (getExtractionDate todayD ed) = ed := by
    unfold getExtractionDate pyWeekday
    split <;> omega
  refine ⟨appendHistoricalDate_chain _ _, ?_, ?_⟩
  · exact ⟨getExtractionDate todayD ed, appendHistoricalDate_getLast _ _, hwd⟩
  · obtain ⟨f, hf, hef, hf7, hdvd⟩ :=
      appendHistoricalDate_head earliest (getExtractionDate todayD ed) (by omega)
    refine ⟨f, hf, hef, by omega, ?_, ?_⟩
    · unfold pyWeekday
      unfold pyWeekday at hwd
      omega
    · intro x hx hex
      unfold pyWeekday at hx hwd
      omega

/-- Witness for `c2_checkpoint_series` at earliest 14, Friday extraction,
today 34. -/
theorem c2_checkpoint_series_witness :
    (getHistoricalDates 14 4 34).Chain' (fun a b => b = a + 7) ∧
    (∃ last, (getHistoricalDates 14 4 34).getLast? = some last ∧ pyWeekday last = 4) ∧
    (∃ f, (getHistoricalDates 14 4 34).head? = some f ∧
      (14 : Int) ≤ f ∧ f < 14 + 7 ∧ pyWeekday f = 4 ∧
      ∀ x : Int, pyWeekday x = 4 → (14 : Int) ≤ x → f ≤ x) :=
  c2_checkpoint_series 14 4 34 (by norm_num) (by norm_num) (by norm_num)

/-- Writing an entry into the current-state table never removes a key. -/
theorem setState_keys_mono {α : Type} (keyOf : α → String) (s : List (String × α)) (e : α)
    (k : String) (hk : k ∈ s.map Prod.fst) : k ∈ (setState keyOf s e).map Prod.fst := by
  unfold setState
  split
  · have : (s.map (fun kv => if kv.1 == keyOf e then (kv.1, e) else kv)).map Prod.fst =
        s.map Prod.fst := by
      rw [List.map_map]
      apply List.map_congr_left
      intro kv _
      by_cases h : kv.1 = keyOf e <;> simp [h]
    rw [this]
    exact hk
  · simp only [List.map_append, List.mem_append]
    exact Or.inl hk

/-- Applying a batch of due entries never removes a key. -/
theorem foldl_setState_keys_mono {α : Type} (keyOf : α → String) (es : List α) :
    ∀ (s : List (String × α)) (k : String), k ∈ s.map Prod.fst →
      k ∈ (es.foldl (setState keyOf) s).map Prod.fst := by
  induction es with
  | nil => intro s k hk; exact hk
  | cons e es ih =>
    intro s k hk
    exact ih _ k (setState_keys_mono keyOf s e k hk)

/-- Every key of the state a replay starts from is present in every snapshot
it produces. -/
theorem replaySteps_keys_grow {α : Type} (dateOf : α → Int) (keyOf : α → String)
    (dates : List Int) :
    ∀ (q : List α) (s : List (String × α)) (p : Int × List (String × α)),
      p ∈ replaySteps dateOf keyOf dates q s →
      ∀ k, k ∈ s.map Prod.fst → k ∈ p.2.map Prod.fst := by
  induction dates with
  | nil =>
    intro q s p hp
    simp [replaySteps] at hp
  | cons d ds ih =>
    intro q s p hp k hk
    simp only [replaySteps, List.mem_cons] at hp
    rcases hp with rfl | hp
    · exact foldl_setState_keys_mono keyOf _ s k hk
    · exact ih _ _ p hp k (foldl_setState_keys_mono keyOf _ s k hk)

/-- C3: snapshot monotonicity of the checkpoint replay loop shared by the
ClearQuest and Jira-GT calculators — applying queued events overwrites an
issue's state but never removes an issue from the table, so every issue key
present in the snapshot at an earlier checkpoint is present at every later
one. -/
theorem c3_snapshot_monotone {α : Type} (dateOf : α → Int) (keyOf : α → String)
    (dates : List Int) (queue : List α) (s0 : List (String × α)) (i j : Nat)
    (hij : i ≤ j) (pi pj : Int × List (String × α))
    (hi : (replaySteps dateOf keyOf dates queue s0)[i]? = some pi)
    (hj : (replaySteps dateOf keyOf dates queue s0)[j]? = some pj)
    (k : String) (hk : k ∈ pi.2.map Prod.fst) : k ∈ pj.2.map Prod.fst := by
  induction dates generalizing queue s0 i j with
  | nil => simp [replaySteps] at hi
  | cons d ds ih =>
    simp only [replaySteps] at hi hj
    match i, j with
    | 0, 0 =>
      simp only [List.getElem?_cons_zero, Option.some.injEq] at hi hj
      subst hi
      subst hj
      exact hk
    | 0, j' + 1 =>
      simp only [List.getElem?_cons_zero, Option.some.injEq] at hi
      simp only [List.getElem?_cons_succ] at hj
      have hmem : pj ∈ replaySteps dateOf keyOf ds
          (popDue dateOf d queue).2 ((popDue dateOf d queue).1.foldl (setState keyOf) s0) :=
        List.getElem?_mem hj
      refine replaySteps_keys_grow dateOf keyOf ds _ _ pj hmem k ?_
      subst hi
      exact hk
    | i' + 1, j' + 1 =>
      simp only [List.getElem?_cons_succ] at hi hj
      exact ih _ _ i' j' (by omega) hi hj

/-- Witness for `c3_snapshot_monotone` on a one-entry queue and two
checkpoints. -/
theorem c3_snapshot_monotone_witness :
    "K1" ∈ ((7 : Int), [("K1", witEntry)]).2.map Prod.fst :=
  c3_snapshot_monotone QEntry.date QEntry.key [0, 7] [witEntry] [] 0 1 (by omega)
    (0, [("K1", witEntry)]) (7, [("K1", witEntry)]) (by rfl) (by rfl) "K1" (by decide)

/-- Key structure of a count table: fixed outer key list, and every row has
the same fixed inner key list. -/
def tableKeysOk (outer inner : List String) (t : CountTable) : Prop :=
  t.map Prod.fst = outer ∧ ∀ row ∈ t, row.2.map Prod.fst = inner

/-- `rowIncr` preserves the key list. -/
theorem rowIncr_keys (r : CountRow) (k : String) (r' : CountRow)
    (h : rowIncr r k = some r') : r'.map Prod.fst = r.map Prod.fst := by
  induction r generalizing r' with
  | nil => simp [rowIncr] at h
  | cons e rest ih =>
    obtain ⟨ek, ev⟩ := e
    unfold rowIncr at h
    by_cases hk : (ek == k) = true
    · rw [if_pos hk] at h
      obtain ⟨rfl⟩ := Option.some.injEq _ _ ▸ h
      simp
    · rw [if_neg hk] at h
      obtain ⟨r'', hr'', rfl⟩ := Option.map_eq_some'.mp h
      simp [ih r'' hr'']

/-- `rowIncr` increments the requested count by one and leaves every other
count unchanged. -/
theorem rowIncr_get (r : CountRow) (k : String) (r' : CountRow)
    (h : rowIncr r k = some r') :
    rowGet r' k = rowGet r k + 1 ∧ ∀ k', k' ≠ k → rowGet r' k' = rowGet r k' := by
  induction r generalizing r' with
  | nil => simp [rowIncr] at h
  | cons e rest ih =>
    obtain ⟨ek, ev⟩ := e
    unfold rowIncr at h
    by_cases hk : (ek == k) = true
    · rw [if_pos hk] at h
      obtain ⟨rfl⟩ := Option.some.injEq _ _ ▸ h
      have hek : ek = k := by simpa using hk
      subst hek
      constructor
      · simp [rowGet, List.find?]
      · intro k' hk'
        have : (ek == k') = false := by
          simp only [beq_eq_false_iff_ne]
          exact fun hh => hk' hh.symm
        simp [rowGet, List.find?, this]
    · rw [if_neg hk] at h
      obtain ⟨r'', hr'', rfl⟩ := Option.map_eq_some'.mp h
      obtain ⟨ih1, ih2⟩ := ih r'' hr''
      constructor
      · simp only [rowGet, List.find?, hk]
        exact ih1
      · intro k' hk'
        by_cases he : (ek == k') = true
        · simp [rowGet, List.find?, he]
        · simp only [rowGet, List.find?, he]
          exact ih2 k' hk'

/-- `rowIncr` succeeds whenever the key is present. -/
theorem rowIncr_mem (r : CountRow) (k : String) (hk : k ∈ r.map Prod.fst) :
    ∃ r', rowIncr r k = some r' := by
  induction r with
  | nil => simp at hk
  | cons e rest ih =>
    obtain ⟨ek, ev⟩ := e
    by_cases he : (ek == k) = true
    · exact ⟨_, by unfold rowIncr; rw [if_pos he]⟩
    · have hek : ek ≠ k := by simpa using he
      have : k ∈ rest.map Prod.fst := by
        simp only [List.map_cons, List.mem_cons] at hk
        exact hk.resolve_left (fun hh => hek hh.symm)
      obtain ⟨r'', hr''⟩ := ih this
      exact ⟨_, by unfold rowIncr; rw [if_neg he, hr'']; rfl⟩

/-- `tableIncr` preserves the two-level key structure. -/
theorem tableIncr_keysOk (t : CountTable) (k1 k2 : String) (t' : CountTable)
    (o inn : List String) (ht : tableKeysOk o inn t)
    (h : tableIncr t k1 k2 = some t') : tableKeysOk o inn t' := by
  induction t generalizing t' o with
  | nil => simp [tableIncr] at h
  | cons e rest ih =>
    obtain ⟨ek, erow⟩ := e
    obtain ⟨ho, hrows⟩ := ht
    unfold tableIncr at h
    by_cases hk : (ek == k1) = true
    · rw [if_pos hk] at h
      obtain ⟨r', hr', rfl⟩ := Option.map_eq_some'.mp h
      refine ⟨by simpa using ho, ?_⟩
      intro row hrow
      rcases List.mem_cons.mp hrow with rfl | hrow
      · rw [rowIncr_keys erow k2 r' hr']
        exact hrows (ek, erow) (List.mem_cons_self _ _)
      · exact hrows row (List.mem_cons_of_mem _ hrow)
    · rw [if_neg hk] at h
      obtain ⟨t'', ht'', rfl⟩ := Option.map_eq_some'.mp h
      simp only [List.map_cons] at ho
      obtain ⟨hrest1, hrest2⟩ := ih t''
        (rest.map Prod.fst)
        ⟨rfl, fun row hrow => hrows row (List.mem_cons_of_mem _ hrow)⟩ ht''
      refine ⟨?_, ?_⟩
      · simp only [List.map_cons, hrest1]
        exact ho
      · intro row hrow
        rcases List.mem_cons.mp hrow with rfl | hrow
        · exact hrows (ek, erow) (List.mem_cons_self _ _)
        · exact hrest2 row hrow

/-- `tableIncr` increments exactly the requested nested count. -/
theorem tableIncr_get (t : CountTable) (k1 k2 : String) (t' : CountTable)
    (h : tableIncr t k1 k2 = some t') :
    tableGet t' k1 k2 = tableGet t k1 k2 + 1 ∧
    ∀ a b, a ≠ k1 ∨ b ≠ k2 → tableGet t' a b = tableGet t a b := by
  induction t generalizing t' with
  | nil => simp [tableIncr] at h
  | cons e rest ih =>
    obtain ⟨ek, erow⟩ := e
    unfold tableIncr at h
    by_cases hk : (ek == k1) = true
    · rw [if_pos hk] at h
      obtain ⟨r', hr', rfl⟩ := Option.map_eq_some'.mp h
      have hek : ek = k1 := by simpa using hk
      subst hek
      obtain ⟨hg1, hg2⟩ := rowIncr_get erow k2 r' hr'
      constructor
      · simp only [tableGet, rowOf, List.find?, beq_self_eq_true, Option.map_some',
          Option.getD_some]
        exact hg1
      · intro a b hab
        by_cases hea : (ek == a) = true
        · have : ek = a := by simpa using hea
          subst this
          rcases hab with ha | hb
          · exact absurd rfl ha
          · simp only [tableGet, rowOf, List.find?, beq_self_eq_true, Option.map_some',
              Option.getD_some]
            exact hg2 b hb
        · simp [tableGet, rowOf, List.find?, hea]
    · rw [if_neg hk] at h
      obtain ⟨t'', ht'', rfl⟩ := Option.map_eq_some'.mp h
      obtain ⟨ih1, ih2⟩ := ih t'' ht''
      constructor
      · simp only [tableGet, rowOf, List.find?, hk]
        exact ih1
      · intro a b hab
        by_cases hea : (ek == a) = true
        · simp [tableGet, rowOf, List.find?, hea]
        · simp only [tableGet, rowOf, List.find?, hea]
          exact ih2 a b hab

/-- The row stored under a present outer key has the common inner key
list. -/
theorem rowOf_keys (t : CountTable) (o inn : List String) (k : String)
    (ht : tableKeysOk o inn t) (hk : k ∈ o) : (rowOf t k).map Prod.fst = inn := by
  obtain ⟨ho, hrows⟩ := ht
  subst ho
  induction t with
  | nil => simp at hk
  | cons e rest ih =>
    obtain ⟨ek, erow⟩ := e
    by_cases he : (ek == k) = true
    · simp only [rowOf, List.find?, he, Option.map_some', Option.getD_some]
      exact hrows (ek, erow) (List.mem_cons_self _ _)
    · have hek : ek ≠ k := by simpa using he
      simp only [List.map_cons, List.mem_cons] at hk
      rcases hk with rfl | hk
      · exact absurd rfl hek
      · simp only [rowOf, List.find?, he]
        exact ih (fun row hrow => hrows row (List.mem_cons_of_mem _ hrow)) hk

/-- `tableIncr` succeeds whenever both keys are present. -/
theorem tableIncr_mem (t : CountTable) (k1 k2 : String)
    (h1 : k1 ∈ t.map Prod.fst) (h2 : k2 ∈ (rowOf t k1).map Prod.fst) :
    ∃ t', tableIncr t k1 k2 = some t' := by
  induction t with
  | nil => simp at h1
  | cons e rest ih =>
    obtain ⟨ek, erow⟩ := e
    by_cases he : (ek == k1) = true
    · have hrow : rowOf ((ek, erow) :: rest) k1 = erow := by
        simp [rowOf, List.find?, he]
      rw [hrow] at h2
      obtain ⟨r', hr'⟩ := rowIncr_mem erow k2 h2
      exact ⟨_, by unfold tableIncr; rw [if_pos he, hr']; rfl⟩
    · have hek : ek ≠ k1 := by simpa using he
      have h1' : k1 ∈ rest.map Prod.fst := by
        simp only [List.map_cons, List.mem_cons] at h1
        exact h1.resolve_left (fun hh => hek hh.symm)
      have h2' : k2 ∈ (rowOf rest k1).map Prod.fst := by
        simpa [rowOf, List.find?, he] using h2
      obtain ⟨t'', ht''⟩ := ih h1' h2'
      exact ⟨_, by unfold tableIncr; rw [if_neg he, ht'']; rfl⟩

/-- Every count of a freshly initialized row is zero. -/
theorem rowGet_rowInit (ks : List String) (q : String) : rowGet (rowInit ks) q = 0 := by
  induction ks with
  | nil => simp [rowInit, rowGet]
  | cons k rest ih =>
    by_cases hk : (k == q) = true
    · simp [rowInit, rowGet, List.find?, hk]
    · simpa [rowInit, rowGet, List.find?, hk] using ih

/-- The three outer keys of the severity table are pairwise distinct. -/
theorem sevKeysDistinct : TOTAL ≠ OPEN ∧ TOTAL ≠ CLOSED ∧ OPEN ≠ CLOSED := by decide

/-- A successful `sevIncrOne` at column `p` preserves the key structure,
adds one to the `TOTAL` row at `p`, adds one to the combined
`OPEN`/`CLOSED` row at `p`, and — when the status is not in the `Closed`
group's list — leaves the `CLOSED` row untouched and adds the one to
`OPEN`. -/
theorem sevIncrOne_some (sm : StatusMap) (status : String) (t : CountTable) (p : String)
    (t' : CountTable) (h : sevIncrOne sm status t p = some t') :
    (∀ o inn, tableKeysOk o inn t → tableKeysOk o inn t') ∧
    (∀ q, tableGet t' TOTAL q = tableGet t TOTAL q + (if q = p then 1 else 0)) ∧
    (∀ q, tableGet t' OPEN q + tableGet t' CLOSED q =
      tableGet t OPEN q + tableGet t CLOSED q + (if q = p then 1 else 0)) ∧
    (∀ cl, (sm.find? (fun g => g.1 == CLOSED)).map Prod.snd = some cl → status ∉ cl →
      (∀ q, tableGet t' CLOSED q = tableGet t CLOSED q) ∧
      (∀ q, tableGet t' OPEN q = tableGet t OPEN q + (if q = p then 1 else 0))) := by
  obtain ⟨hTO, hTC, hOC⟩ := sevKeysDistinct
  unfold sevIncrOne at h
  cases hcl : (sm.find? (fun g => g.1 == CLOSED)).map Prod.snd with
  | none => rw [hcl] at h; simp at h
  | some cl =>
    rw [hcl] at h
    simp only [Option.bind_eq_bind, Option.some_bind] at h
    by_cases hst : status ∈ cl
    · rw [if_pos hst] at h
      cases h1 : tableIncr t CLOSED p with
      | none => rw [h1] at h; simp at h
      | some t1 =>
        rw [h1] at h
        simp only [Option.some_bind] at h
        obtain ⟨hg1, hg1'⟩ := tableIncr_get t CLOSED p t1 h1
        obtain ⟨hg2, hg2'⟩ := tableIncr_get t1 TOTAL p t' h
        refine ⟨?_, ?_, ?_, ?_⟩
        · intro o inn ht
          exact tableIncr_keysOk t1 TOTAL p t' o inn
            (tableIncr_keysOk t CLOSED p t1 o inn ht h1) h
        · intro q
          by_cases hq : q = p
          · subst hq
            rw [hg2, hg1' TOTAL q (Or.inl hTC)]
            simp
          · rw [hg2' TOTAL q (Or.inr hq), hg1' TOTAL q (Or.inl hTC)]
            simp [hq]
        · intro q
          have hO1 : tableGet t1 OPEN q = tableGet t OPEN q := hg1' OPEN q (Or.inl hOC)
          have hO2 : tableGet t' OPEN q = tableGet t1 OPEN q := hg2' OPEN q (Or.inl hTO.symm)
          have hC2 : tableGet t' CLOSED q = tableGet t1 CLOSED q :=
            hg2' CLOSED q (Or.inl hTC.symm)
          by_cases hq : q = p
          · subst hq
            rw [hO2, hO1, hC2, hg1]
            simp
            omega
          · rw [hO2, hO1, hC2, hg1' CLOSED q (Or.inr hq)]
            simp [hq]
        · intro cl' hcl' hst'
          obtain rfl : cl = cl' := by simpa using hcl'
          exact absurd hst hst'
    · rw [if_neg hst] at h
      cases h1 : tableIncr t OPEN p with
      | none => rw [h1] at h; simp at h
      | some t1 =>
        rw [h1] at h
        simp only [Option.some_bind] at h
        obtain ⟨hg1, hg1'⟩ := tableIncr_get t OPEN p t1 h1
        obtain ⟨hg2, hg2'⟩ := tableIncr_get t1 TOTAL p t' h
        have hC1 : ∀ q, tableGet t1 CLOSED q = tableGet t CLOSED q := fun q =>
          hg1' CLOSED q (Or.inl hOC.symm)
        have hC2 : ∀ q, tableGet t' CLOSED q = tableGet t1 CLOSED q := fun q =>
          hg2' CLOSED q (Or.inl hTC.symm)
        have hO2 : ∀ q, tableGet t' OPEN q = tableGet t1 OPEN q := fun q =>
          hg2' OPEN q (Or.inl hTO.symm)
        have hOmain : ∀ q, tableGet t' OPEN q = tableGet t OPEN q + (if q = p then 1 else 0) := by
          intro q
          by_cases hq : q = p
          · subst hq
            rw [hO2, hg1]
            simp
          · rw [hO2, hg1' OPEN q (Or.inr hq)]
            simp [hq]
        refine ⟨?_, ?_, ?_, ?_⟩
        · intro o inn ht
          exact tableIncr_keysOk t1 TOTAL p t' o inn
            (tableIncr_keysOk t OPEN p t1 o inn ht h1) h
        · intro q
          by_cases hq : q = p
          · subst hq
            rw [hg2, hg1' TOTAL q (Or.inl hTO)]
            simp
          · rw [hg2' TOTAL q (Or.inr hq), hg1' TOTAL q (Or.inl hTO)]
            simp [hq]
        · intro q
          rw [hOmain q, hC2, hC1]
          omega
        · intro cl' hcl' _
          refine ⟨fun q => by rw [hC2, hC1], hOmain⟩

/-- A successful `sevIncrOne` preserves the invariant
`TOTAL = OPEN + CLOSED` at every column. -/
theorem sevIncrOne_inv (sm : StatusMap) (status : String) (t : CountTable) (p : String)
    (t' : CountTable) (h : sevIncrOne sm status t p = some t')
    (hinv : ∀ q, tableGet t TOTAL q = tableGet t OPEN q + tableGet t CLOSED q) :
    ∀ q, tableGet t' TOTAL q = tableGet t' OPEN q + tableGet t' CLOSED q := by
  obtain ⟨-, hT, hOC, -⟩ := sevIncrOne_some sm status t p t' h
  intro q
  have := hinv q
  have h1 := hT q
  have h2 := hOC q
  omega

/-- When a group named `Closed` exists, the `status_map[CLOSED]` lookup
succeeds. -/
theorem findClosed_ex (sm : StatusMap) (hc : CLOSED ∈ sm.map Prod.fst) :
    ∃ cl, (sm.find? (fun g => g.1 == CLOSED)).map Prod.snd = some cl := by
  induction sm with
  | nil => simp at hc
  | cons e rest ih =>
    by_cases he : (e.1 == CLOSED) = true
    · have hstep : List.find? (fun g => g.1 == CLOSED) (e :: rest) = some e :=
        List.find?_cons_of_pos rest he
      exact ⟨e.2, by rw [hstep]; rfl⟩
    · have hek : e.1 ≠ CLOSED := by simpa using he
      have : CLOSED ∈ rest.map Prod.fst := by
        simp only [List.map_cons, List.mem_cons] at hc
        exact hc.resolve_left (fun hh => hek hh.symm)
      obtain ⟨cl, hcl⟩ := ih this
      have hstep : List.find? (fun g => g.1 == CLOSED) (e :: rest) =
          List.find? (fun g => g.1 == CLOSED) rest :=
        List.find?_cons_of_neg rest he
      exact ⟨cl, by rw [hstep]; exact hcl⟩

/-- `sevIncrOne` succeeds when the `Closed` group exists and the column key
is present in the rows. -/
theorem sevIncrOne_ex (sm : StatusMap) (status : String) (t : CountTable) (p : String)
    (inn : List String) (ht : tableKeysOk [TOTAL, CLOSED, OPEN] inn t)
    (hc : CLOSED ∈ sm.map Prod.fst) (hpk : p ∈ inn) :
    ∃ t', sevIncrOne sm status t p = some t' := by
  obtain ⟨cl, hcl⟩ := findClosed_ex sm hc
  have hTmem : TOTAL ∈ ([TOTAL, CLOSED, OPEN] : List String) := by simp
  have hCmem : CLOSED ∈ ([TOTAL, CLOSED, OPEN] : List String) := by simp
  have hOmem : OPEN ∈ ([TOTAL, CLOSED, OPEN] : List String) := by simp
  have houter : t.map Prod.fst = [TOTAL, CLOSED, OPEN] := ht.1
  by_cases hst : status ∈ cl
  · obtain ⟨t1, ht1⟩ := tableIncr_mem t CLOSED p (houter ▸ hCmem)
      (by rw [rowOf_keys t _ inn CLOSED ht hCmem]; exact hpk)
    have hko := tableIncr_keysOk t CLOSED p t1 _ inn ht ht1
    obtain ⟨t2, ht2⟩ := tableIncr_mem t1 TOTAL p (hko.1 ▸ hTmem)
      (by rw [rowOf_keys t1 _ inn TOTAL hko hTmem]; exact hpk)
    refine ⟨t2, ?_⟩
    unfold sevIncrOne
    rw [hcl]
    simp only [Option.bind_eq_bind, Option.some_bind, if_pos hst, ht1, Option.some_bind]
    exact ht2
  · obtain ⟨t1, ht1⟩ := tableIncr_mem t OPEN p (houter ▸ hOmem)
      (by rw [rowOf_keys t _ inn OPEN ht hOmem]; exact hpk)
    have hko := tableIncr_keysOk t OPEN p t1 _ inn ht ht1
    obtain ⟨t2, ht2⟩ := tableIncr_mem t1 TOTAL p (hko.1 ▸ hTmem)
      (by rw [rowOf_keys t1 _ inn TOTAL hko hTmem]; exact hpk)
    refine ⟨t2, ?_⟩
    unfold sevIncrOne
    rw [hcl]
    simp only [Option.bind_eq_bind, Option.some_bind, if_neg hst, ht1, Option.some_bind]
    exact ht2

/-- A successful `sevStep` preserves the `TOTAL = OPEN + CLOSED`
invariant. -/
theorem sevStep_inv (sm : StatusMap) (t : CountTable) (i : CurrState) (t' : CountTable)
    (h : sevStep sm t i = some t')
    (hinv : ∀ q, tableGet t TOTAL q = tableGet t OPEN q + tableGet t CLOSED q) :
    ∀ q, tableGet t' TOTAL q = tableGet t' OPEN q + tableGet t' CLOSED q := by
  unfold sevStep at h
  by_cases hp : optTruthy i.priority
  · rw [if_pos hp] at h
    cases h1 : sevIncrOne sm i.status t (i.priority.getD "") with
    | none => rw [h1] at h; simp at h
    | some t1 =>
      rw [h1] at h
      simp only [Option.bind_eq_bind, Option.some_bind] at h
      exact sevIncrOne_inv sm i.status t1 TOTAL t' h
        (sevIncrOne_inv sm i.status t _ t1 h1 hinv)
  · rw [if_neg hp] at h
    obtain rfl : t = t' := by simpa using h
    exact hinv

/-- A successful `sevStep` preserves the key structure. -/
theorem sevStep_keysOk (sm : StatusMap) (t : CountTable) (i : CurrState) (t' : CountTable)
    (o inn : List String) (ht : tableKeysOk o inn t) (h : sevStep sm t i = some t') :
    tableKeysOk o inn t' := by
  unfold sevStep at h
  by_cases hp : optTruthy i.priority
  · rw [if_pos hp] at h
    cases h1 : sevIncrOne sm i.status t (i.priority.getD "") with
    | none => rw [h1] at h; simp at h
    | some t1 =>
      rw [h1] at h
      simp only [Option.bind_eq_bind, Option.some_bind] at h
      exact (sevIncrOne_some sm i.status t1 TOTAL t' h).1 o inn
        ((sevIncrOne_some sm i.status t _ t1 h1).1 o inn ht)
  · rw [if_neg hp] at h
    obtain rfl : t = t' := by simpa using h
    exact ht

/-- `sevStep` succeeds on an issue whose (truthy) priority is a configured
column. -/
theorem sevStep_ex (sm : StatusMap) (pl : List String) (t : CountTable) (i : CurrState)
    (ht : tableKeysOk [TOTAL, CLOSED, OPEN] (pl ++ [TOTAL]) t)
    (hc : CLOSED ∈ sm.map Prod.fst)
    (hp : optTruthy i.priority → i.priority.getD "" ∈ pl) :
    ∃ t', sevStep sm t i = some t' ∧ tableKeysOk [TOTAL, CLOSED, OPEN] (pl ++ [TOTAL]) t' := by
  unfold sevStep
  by_cases hpt : optTruthy i.priority
  · rw [if_pos hpt]
    obtain ⟨t1, ht1⟩ := sevIncrOne_ex sm i.status t (i.priority.getD "") _ ht hc
      (List.mem_append.mpr (Or.inl (hp hpt)))
    have hko1 := (sevIncrOne_some sm i.status t _ t1 ht1).1 _ _ ht
    obtain ⟨t2, ht2⟩ := sevIncrOne_ex sm i.status t1 TOTAL _ hko1 hc
      (List.mem_append.mpr (Or.inr (by simp)))
    refine ⟨t2, ?_, (sevIncrOne_some sm i.status t1 TOTAL t2 ht2).1 _ _ hko1⟩
    rw [ht1]
    simpa using ht2
  · rw [if_neg hpt]
    exact ⟨t, rfl, ht⟩

/-- The key list of a freshly initialized row. -/
theorem rowInit_keys (ks : List String) : (rowInit ks).map Prod.fst = ks := by
  induction ks with
  | nil => rfl
  | cons k rest ih => simpa [rowInit] using ih

/-- A table all of whose rows are all-zero reads zero everywhere. -/
theorem tableGet_of_rows_zero (t : CountTable)
    (h : ∀ row ∈ t, ∀ q, rowGet row.2 q = 0) : ∀ a q, tableGet t a q = 0 := by
  intro a q
  unfold tableGet rowOf
  cases hf : t.find? (fun e => e.1 == a) with
  | none => rfl
  | some e =>
    have hmem := List.mem_of_find?_eq_some hf
    simpa using h e hmem q

/-- The freshly initialized severity table has the fixed key structure and
all-zero counts. -/
theorem sevInit_ok (pl : List String) :
    tableKeysOk [TOTAL, CLOSED, OPEN] (pl ++ [TOTAL]) (sevInit pl) ∧
    ∀ a q, tableGet (sevInit pl) a q = 0 := by
  constructor
  · constructor
    · simp [sevInit]
    · intro row hrow
      simp only [sevInit, List.map_cons, List.map_nil, List.mem_cons, List.not_mem_nil,
        or_false] at hrow
      rcases hrow with rfl | rfl | rfl <;> exact rowInit_keys _
  · refine tableGet_of_rows_zero _ ?_
    intro row hrow q
    simp only [sevInit, List.map_cons, List.map_nil, List.mem_cons, List.not_mem_nil,
      or_false] at hrow
    rcases hrow with rfl | rfl | rfl <;> exact rowGet_rowInit _ q

/-- The freshly initialized status table has the fixed key structure and
all-zero counts. -/
theorem statInit_ok (sm : StatusMap) :
    tableKeysOk [TOTAL] (sm.map Prod.fst ++ [TOTAL]) (statInit sm) ∧
    ∀ a q, tableGet (statInit sm) a q = 0 := by
  refine ⟨⟨by simp [statInit], ?_⟩, ?_⟩
  · intro row hrow
    simp only [statInit, List.map_cons, List.map_nil, List.mem_cons, List.not_mem_nil,
      or_false] at hrow
    subst hrow
    exact rowInit_keys _
  · refine tableGet_of_rows_zero _ ?_
    intro row hrow q
    simp only [statInit, List.map_cons, List.map_nil, List.mem_cons, List.not_mem_nil,
      or_false] at hrow
    subst hrow
    exact rowGet_rowInit _ q

/-- A resolved status group is a key of the status map. -/
theorem getStatusGroup_mem (sm : StatusMap) (s g : String)
    (h : getStatusGroup sm s = some g) : g ∈ sm.map Prod.fst := by
  unfold getStatusGroup at h
  cases hf : sm.find? (fun grp => normalizeStatus s ∈ grp.2) with
  | none => rw [hf] at h; simp at h
  | some grp =>
    rw [hf] at h
    obtain rfl : grp.1 = g := by simpa using h
    exact List.mem_map.mpr ⟨grp, List.mem_of_find?_eq_some hf, rfl⟩

/-- `statStep` always succeeds on a well-keyed table and preserves the key
structure. -/
theorem statStep_ex (sm : StatusMap) (t : CountTable) (i : CurrState)
    (ht : tableKeysOk [TOTAL] (sm.map Prod.fst ++ [TOTAL]) t) :
    ∃ t', statStep sm t i = some t' ∧
      tableKeysOk [TOTAL] (sm.map Prod.fst ++ [TOTAL]) t' := by
  unfold statStep
  by_cases hg : optTruthy (getStatusGroup sm i.status)
  · rw [if_pos hg]
    have hsome : ∃ g, getStatusGroup sm i.status = some g := by
      cases hgs : getStatusGroup sm i.status with
      | none => rw [hgs] at hg; simp [optTruthy] at hg
      | some g => exact ⟨g, rfl⟩
    obtain ⟨g, hgs⟩ := hsome
    rw [hgs]
    simp only [Option.getD_some]
    have hgk : g ∈ sm.map Prod.fst ++ [TOTAL] :=
      List.mem_append.mpr (Or.inl (getStatusGroup_mem sm i.status g hgs))
    have hTk : TOTAL ∈ sm.map Prod.fst ++ [TOTAL] := List.mem_append.mpr (Or.inr (by simp))
    have hTo : TOTAL ∈ ([TOTAL] : List String) := by simp
    obtain ⟨t1, ht1⟩ := tableIncr_mem t TOTAL g
      (ht.1 ▸ hTo) (by rw [rowOf_keys t _ _ TOTAL ht hTo]; exact hgk)
    have hko1 := tableIncr_keysOk t TOTAL g t1 _ _ ht ht1
    obtain ⟨t2, ht2⟩ := tableIncr_mem t1 TOTAL TOTAL
      (hko1.1 ▸ hTo) (by rw [rowOf_keys t1 _ _ TOTAL hko1 hTo]; exact hTk)
    refine ⟨t2, ?_, tableIncr_keysOk t1 TOTAL TOTAL t2 _ _ hko1 ht2⟩
    rw [ht1]
    simpa using ht2
  · rw [if_neg hg]
    exact ⟨t, rfl, ht⟩

/-- A successful `statStep` preserves the key structure. -/
theorem statStep_keysOk (sm : StatusMap) (t : CountTable) (i : CurrState) (t' : CountTable)
    (o inn : List String) (ht : tableKeysOk o inn t) (h : statStep sm t i = some t') :
    tableKeysOk o inn t' := by
  unfold statStep at h
  by_cases hg : optTruthy (getStatusGroup sm i.status)
  · rw [if_pos hg] at h
    cases h1 : tableIncr t TOTAL ((getStatusGroup sm i.status).getD "") with
    | none => rw [h1] at h; simp at h
    | some t1 =>
      rw [h1] at h
      simp only [Option.bind_eq_bind, Option.some_bind] at h
      exact tableIncr_keysOk t1 TOTAL TOTAL t' o inn
        (tableIncr_keysOk t TOTAL _ t1 o inn ht h1) h
  · rw [if_neg hg] at h
    obtain rfl : t = t' := by simpa using h
    exact ht

/-- A successful `statStep` on an issue resolving to a non-`Total` group
adds one to that group's count and one to the grand total. -/
theorem statStep_get (sm : StatusMap) (t : CountTable) (i : CurrState) (t' : CountTable)
    (g : String) (hg : getStatusGroup sm i.status = some g) (hgne : g ≠ "")
    (hgT : g ≠ TOTAL) (h : statStep sm t i = some t') :
    tableGet t' TOTAL g = tableGet t TOTAL g + 1 ∧
    tableGet t' TOTAL TOTAL = tableGet t TOTAL TOTAL + 1 := by
  unfold statStep at h
  rw [hg] at h
  have htr : optTruthy (some g) = true := by simpa [optTruthy] using hgne
  rw [if_pos htr] at h
  simp only [Option.getD_some] at h
  cases h1 : tableIncr t TOTAL g with
  | none => rw [h1] at h; simp at h
  | some t1 =>
    rw [h1] at h
    simp only [Option.bind_eq_bind, Option.some_bind] at h
    obtain ⟨hg1, hg1'⟩ := tableIncr_get t TOTAL g t1 h1
    obtain ⟨hg2, hg2'⟩ := tableIncr_get t1 TOTAL TOTAL t' h
    constructor
    · rw [hg2' TOTAL g (Or.inr hgT), hg1]
    · rw [hg2, hg1' TOTAL TOTAL (Or.inr (fun hh => hgT hh.symm))]

/-- Folding `sevStep` preserves the `TOTAL = OPEN + CLOSED` invariant. -/
theorem foldlM_sevStep_inv (sm : StatusMap) (data : List CurrState) :
    ∀ t0 t, (∀ q, tableGet t0 TOTAL q = tableGet t0 OPEN q + tableGet t0 CLOSED q) →
      data.foldlM (sevStep sm) t0 = some t →
      ∀ q, tableGet t TOTAL q = tableGet t OPEN q + tableGet t CLOSED q := by
  induction data with
  | nil =>
    intro t0 t hinv h
    obtain rfl : t0 = t := by simpa using h
    exact hinv
  | cons i rest ih =>
    intro t0 t hinv h
    rw [List.foldlM_cons] at h
    cases h1 : sevStep sm t0 i with
    | none => rw [h1] at h; simp at h
    | some t1 =>
      rw [h1] at h
      simp only [Option.bind_eq_bind, Option.some_bind] at h
      exact ih t1 t (sevStep_inv sm t0 i t1 h1 hinv) h

/-- Folding `sevStep` over issues with configured priorities succeeds and
preserves the key structure. -/
theorem foldlM_sevStep_ex (sm : StatusMap) (pl : List String) (data : List CurrState)
    (hc : CLOSED ∈ sm.map Prod.fst) :
    ∀ t0, tableKeysOk [TOTAL, CLOSED, OPEN] (pl ++ [TOTAL]) t0 →
      (∀ i ∈ data, optTruthy i.priority → i.priority.getD "" ∈ pl) →
      ∃ t, data.foldlM (sevStep sm) t0 = some t ∧
        tableKeysOk [TOTAL, CLOSED, OPEN] (pl ++ [TOTAL]) t := by
  induction data with
  | nil => intro t0 ht _; exact ⟨t0, rfl, ht⟩
  | cons i rest ih =>
    intro t0 ht hp
    obtain ⟨t1, ht1, hko1⟩ := sevStep_ex sm pl t0 i ht hc
      (hp i (List.mem_cons_self _ _))
    obtain ⟨t, htf, hko⟩ := ih t1 hko1 (fun j hj => hp j (List.mem_cons_of_mem _ hj))
    refine ⟨t, ?_, hko⟩
    rw [List.foldlM_cons, ht1]
    simpa using htf

/-- Folding `statStep` always succeeds and preserves the key structure. -/
theorem foldlM_statStep_ex (sm : StatusMap) (data : List CurrState) :
    ∀ t0, tableKeysOk [TOTAL] (sm.map Prod.fst ++ [TOTAL]) t0 →
      ∃ t, data.foldlM (statStep sm) t0 = some t ∧
        tableKeysOk [TOTAL] (sm.map Prod.fst ++ [TOTAL]) t := by
  induction data with
  | nil => intro t0 ht; exact ⟨t0, rfl, ht⟩
  | cons i rest ih =>
    intro t0 ht
    obtain ⟨t1, ht1, hko1⟩ := statStep_ex sm t0 i ht
    obtain ⟨t, htf, hko⟩ := ih t1 hko1
    refine ⟨t, ?_, hko⟩
    rw [List.foldlM_cons, ht1]
    simpa using htf

/-- Folding `statStep` from a well-keyed table preserves the key structure
on success. -/
theorem foldlM_statStep_keysOk (sm : StatusMap) (data : List CurrState) :
    ∀ t0 t, tableKeysOk [TOTAL] (sm.map Prod.fst ++ [TOTAL]) t0 →
      data.foldlM (statStep sm) t0 = some t →
      tableKeysOk [TOTAL] (sm.map Prod.fst ++ [TOTAL]) t := by
  induction data with
  | nil =>
    intro t0 t ht h
    obtain rfl : t0 = t := by simpa using h
    exact ht
  | cons i rest ih =>
    intro t0 t ht h
    rw [List.foldlM_cons] at h
    cases h1 : statStep sm t0 i with
    | none => rw [h1] at h; simp at h
    | some t1 =>
      rw [h1] at h
      simp only [Option.bind_eq_bind, Option.some_bind] at h
      exact ih t1 t (statStep_keysOk sm t0 i t1 _ _ ht h1) h

/-- A successful `getStatusData` run has the fixed key structure. -/
theorem getStatusData_keysOk (sm : StatusMap) (data : List CurrState) (t : CountTable)
    (h : getStatusData sm data = some t) :
    tableKeysOk [TOTAL] (sm.map Prod.fst ++ [TOTAL]) t :=
  foldlM_statStep_keysOk sm data (statInit sm) t (statInit_ok sm).1 h

/-- C5: an issue whose priority is null contributes to no bucket of the
severity counts (the whole severity table is unchanged by appending it, so
not even Total × Total moves), while the same issue still adds one to the
status-group count of the group its status resolves to and one to the
status grand total. -/
theorem c5_null_priority_skipped (sm : StatusMap) (pl : List String)
    (data : List CurrState) (i : CurrState) (g : String) (t : CountTable)
    (hpr : i.priority = none)
    (hg : getStatusGroup sm i.status = some g) (hgne : g ≠ "") (hgT : g ≠ TOTAL)
    (ht : getStatusData sm data = some t) :
    getSeverityData sm pl (data ++ [i]) = getSeverityData sm pl data ∧
    ∃ t', getStatusData sm (data ++ [i]) = some t' ∧
      tableGet t' TOTAL g = tableGet t TOTAL g + 1 ∧
      tableGet t' TOTAL TOTAL = tableGet t TOTAL TOTAL + 1 := by
  constructor
  · unfold getSeverityData
    rw [List.foldlM_append]
    cases hf : (data.foldlM (sevStep sm) (sevInit pl)) with
    | none => rfl
    | some t0 =>
      have hstep : sevStep sm t0 i = some t0 := by
        unfold sevStep
        rw [hpr]
        rfl
      simp [hstep]
  · have hko := getStatusData_keysOk sm data t ht
    obtain ⟨t', hstep, -⟩ := statStep_ex sm t i hko
    refine ⟨t', ?_, statStep_get sm t i t' g hg hgne hgT hstep⟩
    unfold getStatusData at ht ⊢
    rw [List.foldlM_append, ht]
    simpa using hstep

/-- Witness for `c5_null_priority_skipped`: a priority-less issue in status
`New` of the SCR map. -/
theorem c5_null_priority_skipped_witness :
    (getSeverityData scrStatusMap defaultPriorityList ([] ++ [⟨"P", 0, "New", none⟩]) =
      getSeverityData scrStatusMap defaultPriorityList []) ∧
    ∃ t', getStatusData scrStatusMap ([] ++ [⟨"P", 0, "New", none⟩]) = some t' ∧
      tableGet t' TOTAL "New" = tableGet (statInit scrStatusMap) TOTAL "New" + 1 ∧
      tableGet t' TOTAL TOTAL = tableGet (statInit scrStatusMap) TOTAL TOTAL + 1 :=
  c5_null_priority_skipped scrStatusMap defaultPriorityList [] ⟨"P", 0, "New", none⟩
    "New" (statInit scrStatusMap) rfl (by decide) (by decide) (by decide) rfl

/-- C6 counterexample: on an issue whose truthy priority `'Medium'` is not
in the configured priority list, the severity aggregator's
`severity_data[...][priority] += 1` lookup fails with a `KeyError`
(modelled `none`) — aggregation does *not* merely fail to increment. The
status aggregator succeeds on the same snapshot. -/
theorem c6_severity_keyerror_cex :
    getSeverityData scrStatusMap defaultPriorityList [mediumState] = none ∧
    optTruthy mediumState.priority = true ∧
    ("Medium" ∉ defaultPriorityList) ∧
    (getStatusData scrStatusMap [mediumState]).isSome = true := by
  refine ⟨by decide, by decide, by decide, by decide⟩

/-- C6 (amended): the aggregators' result-dictionary lookups all succeed —
the severity aggregator under the proviso that every truthy priority in the
snapshot is in the configured priority list (otherwise its `KeyError` is the
counterexample) and that the map has a `Closed` group; the status aggregator
unconditionally, because every resolved group is a configured key and
unresolvable statuses merely fail to increment. -/
theorem c6_fixed_key_lookups (sm : StatusMap) (pl : List String) (data : List CurrState)
    (hc : CLOSED ∈ sm.map Prod.fst)
    (hp : ∀ i ∈ data, optTruthy i.priority → i.priority.getD "" ∈ pl) :
    (∃ t, getSeverityData sm pl data = some t) ∧
    (∀ d2 : List CurrState, ∃ t, getStatusData sm d2 = some t) := by
  constructor
  · obtain ⟨t, htf, -⟩ := foldlM_sevStep_ex sm pl data hc (sevInit pl) (sevInit_ok pl).1 hp
    exact ⟨t, htf⟩
  · intro d2
    obtain ⟨t, htf, -⟩ := foldlM_statStep_ex sm d2 (statInit sm) (statInit_ok sm).1
    exact ⟨t, htf⟩

/-- Witness for `c6_fixed_key_lookups` on a one-issue snapshot with a
configured priority. -/
theorem c6_fixed_key_lookups_witness :
    (∃ t, getSeverityData scrStatusMap defaultPriorityList [⟨"P", 0, "New", some "Major"⟩] =
      some t) ∧
    (∀ d2 : List CurrState, ∃ t, getStatusData scrStatusMap d2 = some t) :=
  c6_fixed_key_lookups scrStatusMap defaultPriorityList [⟨"P", 0, "New", some "Major"⟩]
    (by decide) (by decide)

/-- C10: in every severity table a successful baseline aggregation
produces, every column (all priorities and the Total column alike)
satisfies `Total = Open + Closed`; moreover appending one more issue with a
truthy configured priority whose status is not in the `Closed` group's list
— including statuses mapping to no group at all — increments `Open` (and
not `Closed`) in the Total column. -/
theorem c10_total_split_invariant (sm : StatusMap) (pl : List String)
    (data : List CurrState) (t : CountTable)
    (h : getSeverityData sm pl data = some t) :
    (∀ p, tableGet t TOTAL p = tableGet t OPEN p + tableGet t CLOSED p) ∧
    (∀ i t', optTruthy i.priority → i.priority.getD "" ≠ TOTAL →
      getSeverityData sm pl (data ++ [i]) = some t' →
      ∀ cl, (sm.find? (fun g => g.1 == CLOSED)).map Prod.snd = some cl → i.status ∉ cl →
        tableGet t' OPEN TOTAL = tableGet t OPEN TOTAL + 1 ∧
        tableGet t' CLOSED TOTAL = tableGet t CLOSED TOTAL) := by
  constructor
  · exact foldlM_sevStep_inv sm data (sevInit pl) t
      (fun q => by rw [(sevInit_ok pl).2 TOTAL q, (sevInit_ok pl).2 OPEN q,
        (sevInit_ok pl).2 CLOSED q]) h
  · intro i t' hpt hptT h' cl hcl hst
    unfold getSeverityData at h'
    rw [List.foldlM_append] at h'
    unfold getSeverityData at h
    rw [h] at h'
    simp only [Option.bind_eq_bind, Option.some_bind, List.foldlM_cons, List.foldlM_nil] at h'
    have hstep : sevStep sm t i = some t' := by simpa using h'
    unfold sevStep at hstep
    rw [if_pos hpt] at hstep
    cases h1 : sevIncrOne sm i.status t (i.priority.getD "") with
    | none => rw [h1] at hstep; simp at hstep
    | some t1 =>
      rw [h1] at hstep
      simp only [Option.bind_eq_bind, Option.some_bind] at hstep
      obtain ⟨-, -, -, hcl1⟩ := sevIncrOne_some sm i.status t _ t1 h1
      obtain ⟨-, -, -, hcl2⟩ := sevIncrOne_some sm i.status t1 TOTAL t' hstep
      obtain ⟨hC1, hO1⟩ := hcl1 cl hcl hst
      obtain ⟨hC2, hO2⟩ := hcl2 cl hcl hst
      constructor
      · rw [hO2 TOTAL, hO1 TOTAL, if_pos rfl,
          if_neg (fun hh => hptT hh.symm)]
      · rw [hC2 TOTAL, hC1 TOTAL]

/-- Witness for `c10_total_split_invariant` on a concrete SCR snapshot. -/
theorem c10_total_split_invariant_witness :
    (∀ p, tableGet (rowsFor10) TOTAL p =
      tableGet (rowsFor10) OPEN p + tableGet (rowsFor10) CLOSED p) ∧
    (∀ i t', optTruthy i.priority → i.priority.getD "" ≠ TOTAL →
      getSeverityData scrStatusMap defaultPriorityList
        ([⟨"P", 0, "Assigned", some "Major"⟩] ++ [i]) = some t' →
      ∀ cl, (scrStatusMap.find? (fun g => g.1 == CLOSED)).map Prod.snd = some cl →
        i.status ∉ cl →
        tableGet t' OPEN TOTAL = tableGet (rowsFor10) OPEN TOTAL + 1 ∧
        tableGet t' CLOSED TOTAL = tableGet (rowsFor10) CLOSED TOTAL) :=
  c10_total_split_invariant scrStatusMap defaultPriorityList
    [⟨"P", 0, "Assigned", some "Major"⟩] rowsFor10 (by decide)

/-- Folding the aging walk from a state with accumulated contributions just
prepends them to the contributions of the walk started empty. -/
theorem ageStep_foldl_contribs (sm : StatusMap) (hl : List (String × Int)) :
    ∀ g0 d0 acc, hl.foldl (ageStep sm) ⟨g0, d0, acc⟩ =
      ⟨(hl.foldl (ageStep sm) ⟨g0, d0, []⟩).currGroup,
       (hl.foldl (ageStep sm) ⟨g0, d0, []⟩).currDate,
       acc ++ (hl.foldl (ageStep sm) ⟨g0, d0, []⟩).contribs⟩ := by
  induction hl with
  | nil => intro g0 d0 acc; simp
  | cons e rest ih =>
    intro g0 d0 acc
    simp only [List.foldl_cons]
    by_cases hg : getStatusGroup sm e.1 ≠ g0
    · have h1 : ageStep sm ⟨g0, d0, acc⟩ e =
          ⟨getStatusGroup sm e.1, e.2, acc ++ [(g0, e.2 - d0)]⟩ := by
        unfold ageStep; rw [if_pos hg]
      have h2 : ageStep sm ⟨g0, d0, []⟩ e =
          ⟨getStatusGroup sm e.1, e.2, [] ++ [(g0, e.2 - d0)]⟩ := by
        unfold ageStep; rw [if_pos hg]
      rw [h1, h2, ih _ _ (acc ++ [(g0, e.2 - d0)]), ih _ _ ([] ++ [(g0, e.2 - d0)])]
      simp
    · have h1 : ageStep sm ⟨g0, d0, acc⟩ e = ⟨g0, d0, acc⟩ := by
        unfold ageStep; rw [if_neg hg]
      have h2 : ageStep sm ⟨g0, d0, []⟩ e = ⟨g0, d0, []⟩ := by
        unfold ageStep; rw [if_neg hg]
      rw [h1, h2]
      exact ih g0 d0 acc

/-- Telescoping of the aging walk under `chainOk`: the walk's clock ends at
the last entry's timestamp, the emitted durations sum to exactly (last
entry timestamp − start), and every emitted group is either the start group
or the resolved group of some entry. -/
theorem walk_telescope (sm : StatusMap) (hl : List (String × Int)) :
    ∀ g0 d0, chainOk sm g0 d0 hl = true →
      ((hl.foldl (ageStep sm) ⟨g0, d0, []⟩).currDate =
        (hl.getLast?.map Prod.snd).getD d0) ∧
      (((hl.foldl (ageStep sm) ⟨g0, d0, []⟩).contribs.map Prod.snd).sum =
        (hl.getLast?.map Prod.snd).getD d0 - d0) ∧
      (∀ x ∈ (hl.foldl (ageStep sm) ⟨g0, d0, []⟩).contribs,
        x.1 = g0 ∨ ∃ e ∈ hl, x.1 = getStatusGroup sm e.1) := by
  induction hl with
  | nil => intro g0 d0 _; refine ⟨rfl, by simp, by simp⟩
  | cons e rest ih =>
    intro g0 d0 hch
    unfold chainOk at hch
    simp only [List.foldl_cons]
    by_cases hg : getStatusGroup sm e.1 = g0
    · rw [if_pos hg] at hch
      have hch2 : e.2 = d0 ∧ chainOk sm g0 d0 rest = true := by simpa using hch
      obtain ⟨hed, hch'⟩ := hch2
      have h1 : ageStep sm ⟨g0, d0, []⟩ e = ⟨g0, d0, []⟩ := by
        unfold ageStep; rw [if_neg (by simpa using hg)]
      rw [h1]
      obtain ⟨ih1, ih2, ih3⟩ := ih g0 d0 hch'
      refine ⟨?_, ?_, ?_⟩
      · rw [ih1]
        cases rest with
        | nil => simpa using hed.symm
        | cons f fs => simp [List.getLast?_cons_cons]
      · rw [ih2]
        cases rest with
        | nil => simp [hed]
        | cons f fs => simp [List.getLast?_cons_cons]
      · intro x hx
        rcases ih3 x hx with hx1 | ⟨f, hf, hfx⟩
        · exact Or.inl hx1
        · exact Or.inr ⟨f, List.mem_cons_of_mem _ hf, hfx⟩
    · rw [if_neg hg] at hch
      have h1 : ageStep sm ⟨g0, d0, []⟩ e =
          ⟨getStatusGroup sm e.1, e.2, [] ++ [(g0, e.2 - d0)]⟩ := by
        unfold ageStep; rw [if_pos (by simpa using hg)]
      rw [h1, ageStep_foldl_contribs sm rest (getStatusGroup sm e.1) e.2 ([] ++ [(g0, e.2 - d0)])]
      obtain ⟨ih1, ih2, ih3⟩ := ih (getStatusGroup sm e.1) e.2 hch
      refine ⟨?_, ?_, ?_⟩
      · rw [ih1]
        cases rest with
        | nil => simp
        | cons f fs =>
          rw [List.getLast?_cons_cons]
          cases hlast : (f :: fs).getLast? with
          | none => simp at hlast
          | some lf => simp
      · have hsum : ∀ l : List (Option String × Int),
            ((([] ++ [(g0, e.2 - d0)]) ++ l).map Prod.snd).sum =
              (e.2 - d0) + (l.map Prod.snd).sum := by
          intro l
          simp
        rw [hsum, ih2]
        cases rest with
        | nil => simp
        | cons f fs =>
          rw [List.getLast?_cons_cons]
          cases hlast : (f :: fs).getLast? with
          | none => simp at hlast
          | some lf =>
            simp only [Option.map_some', Option.getD_some]
            omega
      · intro x hx
        simp only [List.nil_append, List.singleton_append, List.mem_cons] at hx
        rcases hx with rfl | hx'
        · exact Or.inl rfl
        · rcases ih3 x hx' with hx1 | ⟨f, hf, hfx⟩
          · exact Or.inr ⟨e, List.mem_cons_self _ _, hx1⟩
          · exact Or.inr ⟨f, List.mem_cons_of_mem _ hf, hfx⟩

/-- A resolved group is accepted by the age-map guard (it is a key of every
age-map row). -/
theorem group_mem_ageRowKeys (sm : StatusMap) (s g : String)
    (h : getStatusGroup sm s = some g) : g ∈ ageRowKeys sm :=
  List.mem_append.mpr (Or.inl (getStatusGroup_mem sm s g h))

/-- C1 counterexample: an issue created at day 0 whose single history event
(at day 5) does not change the resolved group. With `now = 10`, the walk
feeds only 5 days into the Overall row's per-group accumulators — the
creation-to-event segment is lost because the final contribution's lower
bound is the last event's timestamp, not the group's start — so the
durations do not sum to `now - creation = 10`. -/
theorem c1_lost_segment_cex :
    c1HistIssue.createdEff = some 0 ∧
    c1HistIssue.hist ≠ none ∧
    overallRowFedSum scrStatusMap c1HistIssue 10 0 = 5 ∧
    (5 : Int) ≠ 10 - 0 := by
  refine ⟨rfl, by decide, by decide, by decide⟩

/-- C1 (amended): the aging-walk durations fed into the Overall row's
per-group accumulators (the separate Overall-age bucket excluded) sum
exactly to `now - creation` *provided* every status along the walk resolves
to a mapped group and every history entry either changes the resolved group
or carries the current group's start timestamp (`chainOk`) — in particular
whenever each event changes the group. Otherwise the sum falls short, by
the time between the last group change and the last history entry plus any
durations dropped for unmapped groups (see the counterexample). -/
theorem c1_walk_durations_sum (sm : StatusMap) (i : IssueData) (now c : Int)
    (hc : i.createdEff = some c)
    (hne : issueHistoryList i c ≠ [])
    (hch : chainOk sm (getStatusGroup sm (issueFirstStatus i)) c
      (issueHistoryList i c) = true)
    (hmap : ((getStatusGroup sm (issueFirstStatus i)) ::
        (issueHistoryList i c).map (fun e => getStatusGroup sm e.1)).all
          Option.isSome = true) :
    overallRowFedSum sm i now c = now - c := by
  cases hlast : (issueHistoryList i c).getLast? with
  | none =>
    exact absurd (by simpa using hlast) hne
  | some last =>
    obtain ⟨ht1, ht2, ht3⟩ := walk_telescope sm (issueHistoryList i c)
      (getStatusGroup sm (issueFirstStatus i)) c hch
    rw [List.all_eq_true] at hmap
    have hmap1 : (getStatusGroup sm (issueFirstStatus i)).isSome = true ∧
        ∀ e ∈ issueHistoryList i c, (getStatusGroup sm e.1).isSome = true := by
      refine ⟨hmap _ (List.mem_cons_self _ _), ?_⟩
      intro e he
      exact hmap _ (List.mem_cons_of_mem _ (List.mem_map_of_mem _ he))
    have hlastmem : last ∈ issueHistoryList i c := List.mem_of_mem_getLast? hlast
    have hic : issueContribs sm i now c =
        ((issueHistoryList i c).foldl (ageStep sm)
          ⟨getStatusGroup sm (issueFirstStatus i), c, []⟩).contribs ++
        [(getStatusGroup sm last.1, now - last.2)] := by
      simp only [issueContribs, hlast]
    have hpred : ∀ x ∈ issueContribs sm i now c,
        (fun cb : Option String × Int =>
          match cb.1 with
          | some g => decide (g ∈ ageRowKeys sm)
          | none => false) x = true := by
      intro x hx
      rw [hic] at hx
      have hsome : ∃ s, getStatusGroup sm s = x.1 ∧ (getStatusGroup sm s).isSome := by
        rcases List.mem_append.mp hx with hx1 | hx2
        · rcases ht3 x hx1 with hxg | ⟨f, hf, hfx⟩
          · exact ⟨issueFirstStatus i, hxg.symm, hmap1.1⟩
          · exact ⟨f.1, hfx.symm, hmap1.2 f hf⟩
        · have : x = (getStatusGroup sm last.1, now - last.2) := by simpa using hx2
          subst this
          exact ⟨last.1, rfl, hmap1.2 last hlastmem⟩
      obtain ⟨s, hs, hsome'⟩ := hsome
      obtain ⟨g, hg⟩ := Option.isSome_iff_exists.mp hsome'
      have hx1 : x.1 = some g := by rw [← hs, hg]
      simp only [hx1]
      exact decide_eq_true (group_mem_ageRowKeys sm s g (hs ▸ hg))
    unfold overallRowFedSum fedDurations
    rw [List.filter_eq_self.mpr hpred, hic]
    simp only [List.map_append, List.sum_append, List.map_cons, List.map_nil,
      List.sum_cons, List.sum_nil]
    rw [ht2, hlast]
    simp only [Option.map_some', Option.getD_some]
    omega

/-- Witness for `c1_walk_durations_sum`: a history-less Major issue created
at day 0, evaluated at day 10, contributes exactly 10 days. -/
theorem c1_walk_durations_sum_witness :
    overallRowFedSum scrStatusMap noHistIssue 10 0 = 10 - 0 :=
  c1_walk_durations_sum scrStatusMap noHistIssue 10 0 (by decide) (by decide)
    (by decide) (by decide)

/-- C9 counterexample: one history-less issue yields an empty event queue,
and `calculate` indeed returns empty severity and status series without
error — but the age map is *not* fully zeroed: the aging pass still folds
the issue in, so the `[Major][Overall]` accumulator has count 1, not 0. -/
theorem c9_nonzero_age_cex :
    cqQueueEntries "P" [("K1", noHistIssue)] = some [] ∧
    (cqCalculate scrStatusMap defaultPriorityList "P" 10 10 [("K1", noHistIssue)]).map
        (fun r => (r.1, r.2.1, (ageGet r.2.2 "Major" OVERALL).num)) =
      some ([], [], 1) ∧
    (1 : Nat) ≠ 0 := by
  refine ⟨rfl, by rfl, by decide⟩

/-- C9 (amended): whenever the issue population yields an empty event
queue, `calculate` produces empty severity and status time series (no
checkpoint keys at all); the age map is additionally fully zeroed — every
accumulator with count 0 and average 0 — when the population itself is
empty, but not in general (see the counterexample). -/
theorem c9_empty_queue (sm : StatusMap) (pl : List String) (project : String)
    (todayD now : Int) (data : List (String × IssueData))
    (hq : cqQueueEntries project data = some []) :
    (cqCalculate sm pl project todayD now data =
      (getAverageAgeData sm pl now data).map (fun am => ([], [], am))) ∧
    (data = [] → ∃ am, cqCalculate sm pl project todayD now data = some ([], [], am) ∧
      ∀ row ∈ am, ∀ e ∈ row.2, e.2.num = 0 ∧ e.2.average = 0) := by
  have hmain : cqCalculate sm pl project todayD now data =
      (getAverageAgeData sm pl now data).map (fun am => ([], [], am)) := by
    unfold cqCalculate
    rw [hq]
    simp only [Option.bind_eq_bind, Option.some_bind, sortBy]
    cases hage : getAverageAgeData sm pl now data with
    | none => rfl
    | some am => rfl
  refine ⟨hmain, ?_⟩
  rintro rfl
  have hage : getAverageAgeData sm pl now [] =
      some ((ageMapInit sm pl).map (fun row =>
        (row.1, row.2.map (fun e => (e.1, e.2.calcAverage))))) := by
    unfold getAverageAgeData
    rfl
  refine ⟨(ageMapInit sm pl).map (fun row =>
    (row.1, row.2.map (fun e => (e.1, e.2.calcAverage)))), ?_, ?_⟩
  · rw [hmain, hage]
    rfl
  · intro row hrow e he
    obtain ⟨row0, hrow0, rfl⟩ := List.mem_map.mp hrow
    obtain ⟨e0, he0, rfl⟩ := List.mem_map.mp he
    obtain ⟨p0, -, rfl⟩ := List.mem_map.mp hrow0
    obtain ⟨s0, -, rfl⟩ := List.mem_map.mp he0
    constructor
    · rfl
    · show calcAvg 0 0 = 0
      rfl

/-- Witness for `c9_empty_queue` on the empty population. -/
theorem c9_empty_queue_witness :
    (cqCalculate scrStatusMap defaultPriorityList "P" 10 10 [] =
      (getAverageAgeData scrStatusMap defaultPriorityList 10 []).map
        (fun am => ([], [], am))) ∧
    (([] : List (String × IssueData)) = [] →
      ∃ am, cqCalculate scrStatusMap defaultPriorityList "P" 10 10 [] =
          some ([], [], am) ∧
        ∀ row ∈ am, ∀ e ∈ row.2, e.2.num = 0 ∧ e.2.average = 0) :=
  c9_empty_queue scrStatusMap defaultPriorityList "P" 10 10 [] rfl

end MetricsReporter
